import Mathlib

/-!
Verification development for the kvi multi-modal storage engine.

This file gives a shallow embedding of the storage-engine core
(record model, CRC-32 checksums, write-ahead log, MVCC version
manager, HNSW vector index, columnar store, the main engine and the
hybrid engine) and proves or refutes the behavioural claims about it.

Modelling conventions:
* Go maps that the code iterates over or mutates are modelled as
  association lists; iteration order is the list order.
* Wall-clock time is an input: operations that call `time.Now()`
  receive the current instant as an explicit argument.  A `GoTime`
  carries its nanosecond count together with the string produced by
  Go's `time.Time.String`, since the code feeds that string into
  checksums.
* `float64`/`float32` arithmetic is idealised as exact rational
  arithmetic; `int`/`int64` arithmetic wraps modulo 2^64 where the
  code can overflow.
* Randomness (HNSW level assignment) and scheduling (the hybrid
  engine's bounded channel wait) are oracle inputs.
-/

set_option maxRecDepth 2500

namespace Kvi

instance {ε α : Type} [DecidableEq ε] [DecidableEq α] :
    DecidableEq (Except ε α) := fun x y =>
  match x, y with
  | .ok a, .ok b => decidable_of_iff (a = b) (by simp)
  | .error a, .error b => decidable_of_iff (a = b) (by simp)
  | .ok _, .error _ => isFalse (by simp)
  | .error _, .ok _ => isFalse (by simp)

/-- A Go `time.Time` instant: the `UnixNano` value plus the rendering
produced by `time.Time.String`, which `calculateChecksum` consumes. -/
structure GoTime where
  nanos : Int
  render : String
deriving DecidableEq, Repr

/-- The `UnixNano` of Go's zero `time.Time` (year 1); used to model
`time.Time.IsZero`. -/
def goZeroNanos : Int := -6795364578871345152

/-- Model of `time.Time.IsZero`. -/
def GoTime.isZero (t : GoTime) : Bool := t.nanos == goZeroNanos

/-- Model of `t1.After(t2)` on Go times. -/
def GoTime.after (t1 t2 : GoTime) : Bool := t2.nanos < t1.nanos

/-- Dynamically typed Go value (`interface{}`) as stored in a record's
data map.  Floats are idealised as exact rationals. -/
inductive GoValue where
  | vNull
  | vInt (n : Int)
  | vInt64 (n : Int)
  | vInt32 (n : Int)
  | vUInt64 (n : Nat)
  | vFloat (q : ℚ)
  | vFloat32 (q : ℚ)
  | vStr (s : String)
  | vBool (b : Bool)
  | vVecF32 (v : List ℚ)
deriving DecidableEq, Repr

/-- The record type (`pkg/types.Record`).  The data map is an
association list in insertion order. -/
structure Record where
  ID : String
  Data : List (String × GoValue)
  Vector : List ℚ
  Version : Nat
  TTL : Option GoTime
  Checksum : Nat
  CreatedAt : GoTime
  UpdatedAt : GoTime
deriving DecidableEq, Repr

/-- Error values surfaced by the engine (`pkg/types` errors plus a
marker for a Go nil-pointer panic, which the embedding makes explicit
rather than crashing). -/
inductive GoErr where
  | keyNotFound
  | dataCorruption
  | invalidMode
  | nodeExists
  | dimensionMismatch
  | nilPanic
  | message (s : String)
deriving DecidableEq, Repr

/-- WAL operation tags (`pkg/types.Operation`). -/
inductive GoOp where
  | opPut
  | opDelete
  | opBatch
  | opCheckpoint
deriving DecidableEq, Repr

/-- Numeric value of an operation tag, as serialised by `encoding/json`. -/
def GoOp.toByte : GoOp → Nat
  | .opPut => 0
  | .opDelete => 1
  | .opBatch => 2
  | .opCheckpoint => 3

/-! ## Bytes, UTF-8 and CRC-32 -/

/-- UTF-8 encoding of a single code point, as a list of byte values. -/
def utf8Bytes (c : Char) : List Nat :=
  let n := c.toNat
  if n < 0x80 then [n]
  else if n < 0x800 then
    [0xC0 + n / 0x40, 0x80 + n % 0x40]
  else if n < 0x10000 then
    [0xE0 + n / 0x1000, 0x80 + n / 0x40 % 0x40, 0x80 + n % 0x40]
  else
    [0xF0 + n / 0x40000, 0x80 + n / 0x1000 % 0x40, 0x80 + n / 0x40 % 0x40,
      0x80 + n % 0x40]

/-- UTF-8 bytes of a string (`[]byte(s)` in Go). -/
def strBytes (s : String) : List Nat :=
  s.toList.flatMap utf8Bytes

/-- One bit step of the reflected CRC-32 computation with the IEEE
polynomial 0xEDB88320. -/
def crcBitStep (c : Nat) : Nat :=
  if c % 2 = 1 then (c / 2) ^^^ 0xEDB88320 else c / 2

/-- Fold one byte into the running CRC-32 state. -/
def crcByteStep (crc : Nat) (b : Nat) : Nat :=
  crcBitStep (crcBitStep (crcBitStep (crcBitStep
    (crcBitStep (crcBitStep (crcBitStep (crcBitStep (crc ^^^ b))))))))

/-- The running CRC-32 update loop over a byte list. -/
def crcUpdate (c : Nat) (bytes : List Nat) : Nat := bytes.foldl crcByteStep c

/-- `hash/crc32.ChecksumIEEE` over a byte list. -/
def crc32IEEE (bytes : List Nat) : Nat :=
  crcUpdate 0xFFFFFFFF bytes ^^^ 0xFFFFFFFF

theorem crcUpdate_append (c : Nat) (xs ys : List Nat) :
    crcUpdate c (xs ++ ys) = crcUpdate (crcUpdate c xs) ys := by
  simp [crcUpdate, List.foldl_append]

example : crc32IEEE (strBytes "123456789") = 0xCBF43926 := by decide

/-! ## Engine checksum helpers (`internal/engine/engine.go`) -/

/-- Go's `string(rune(n))`: the single-character string for a valid
code point, and the replacement character for an invalid one. -/
def goRuneString (n : Int) : String :=
  if 0 ≤ n ∧ n.toNat < 0xD800 ∨ 0xE000 ≤ n ∧ n.toNat < 0x110000 then
    String.mk [Char.ofNat n.toNat]
  else
    String.mk [Char.ofNat 0xFFFD]

/-- The engine's `toString` helper: a lossy rendering of a dynamic
value (int and float collapse to a single rune, unsupported types to
the empty string). -/
def toStringGo : GoValue → String
  | .vStr s => s
  | .vInt n => goRuneString n
  | .vFloat q => goRuneString ⌊q⌋
  | .vBool b => if b then "true" else "false"
  | _ => ""

/-- `calculateChecksum`: CRC-32 of `ID + UpdatedAt.String()` followed by
each data key and the `toString` rendering of its value. -/
def calculateChecksum (r : Record) : Nat :=
  let data := r.Data.foldl (fun acc kv => acc ++ kv.1 ++ toStringGo kv.2)
    (r.ID ++ r.UpdatedAt.render)
  crc32IEEE (strBytes data)

/-- `verifyChecksum`: the stored checksum matches a recomputation. -/
def verifyChecksum (r : Record) : Bool :=
  r.Checksum == calculateChecksum r

/-- `calculateSnapshotChecksum`: CRC-32 of
`"{version}|{created_at_nanos}|{record_count}|"`. -/
def calculateSnapshotChecksum (version : Nat) (createdNanos : Int)
    (recordCount : Nat) : Nat :=
  crc32IEEE (strBytes (toString version ++ "|" ++ toString createdNanos ++ "|"
    ++ toString recordCount ++ "|"))

/-- Conversion of `time.Now().UnixNano()` to a `uint64` version tag. -/
def u64OfNanos (i : Int) : Nat := (i % (2 ^ 64)).toNat

/-! ## Write-ahead log (`internal/wal/wal.go`) -/

/-- One WAL `LogEntry`.  The record pointer may be nil (`none`). -/
structure LogEntry where
  lsn : Nat
  timestamp : Int
  op : GoOp
  key : String
  record : Option Record
  checksum : Nat
deriving DecidableEq, Repr

/-- JSON string-escaping for one character, as performed by Go's
`encoding/json` (including the HTML escapes for `&`, `<`, `>`). -/
def jsonEscapeChar (c : Char) : String :=
  if c = '"' then "\\\""
  else if c = '\\' then "\\\\"
  else if c = '\n' then "\\n"
  else if c = '\r' then "\\r"
  else if c = '\t' then "\\t"
  else if c = '&' then "\\u0026"
  else if c = '<' then "\\u003c"
  else if c = '>' then "\\u003e"
  else if c.toNat < 0x20 then
    "\\u00" ++ String.mk [Char.ofNat (c.toNat / 16 + 48)]
      ++ String.mk [Char.ofNat (if c.toNat % 16 < 10 then c.toNat % 16 + 48
        else c.toNat % 16 + 87)]
  else String.mk [c]

/-- JSON string literal for `s`. -/
def jsonStr (s : String) : String :=
  "\"" ++ String.join (s.toList.map jsonEscapeChar) ++ "\""

/-- `json.Marshal` of a `LogEntry`, parametrised by the encoding
`encRec` of the embedded record pointer (the struct fields are emitted
in declaration order with their JSON tags). -/
def marshalLogEntry (encRec : Option Record → String) (e : LogEntry) :
    List Nat :=
  strBytes ("\x7b\"lsn\":" ++ toString e.lsn
    ++ ",\"timestamp\":" ++ toString e.timestamp
    ++ ",\"op\":" ++ toString e.op.toByte
    ++ ",\"key\":" ++ jsonStr e.key
    ++ ",\"record\":" ++ encRec e.record
    ++ ",\"checksum\":" ++ toString e.checksum ++ "\x7d")

/-- The encoding of a nil record pointer. -/
def encRecNull : Option Record → String := fun _ => "null"

/-- WAL state: the in-memory buffer and the flushed frames, each frame
holding one entry (frame framing is length-prefixed on disk; no
corruption is injected in this model, so a frame deserialises to the
entry it was written from). -/
structure WalState where
  buffer : List LogEntry
  file : List LogEntry
deriving DecidableEq, Repr

/-- A fresh WAL over an empty file. -/
def WalState.empty : WalState := ⟨[], []⟩

/-- `WAL.Flush`: moves the buffer onto the file. -/
def walFlush (w : WalState) : WalState :=
  { buffer := [], file := w.file ++ w.buffer }

/-- `WAL.Append`: stamps the entry, computes its CRC over the current
serialisation (the checksum field is NOT zeroed first — it holds
whatever value the entry carried in), buffers it, and flushes once the
buffer reaches 1000 entries.  Returns the updated state and the
mutated entry. -/
def walAppend (encRec : Option Record → String) (w : WalState)
    (now : GoTime) (e : LogEntry) : WalState × LogEntry :=
  let e1 := { e with timestamp := now.nanos, lsn := u64OfNanos now.nanos }
  let e2 := { e1 with checksum := crc32IEEE (marshalLogEntry encRec e1) }
  let w1 := { w with buffer := w.buffer ++ [e2] }
  if w1.buffer.length ≥ 1000 then (walFlush w1, e2) else (w1, e2)

/-- The CRC verification performed by `WAL.ReadAll` on one entry: zero
the checksum field, re-marshal, compare. -/
def walEntryCrcOk (encRec : Option Record → String) (e : LogEntry) : Bool :=
  crc32IEEE (marshalLogEntry encRec { e with checksum := 0 }) == e.checksum

/-- `WAL.ReadAll`: flushes, then scans the file, silently skipping
entries that fail the CRC check. -/
def walReadAll (encRec : Option Record → String) (w : WalState) :
    List LogEntry × WalState :=
  let w1 := walFlush w
  (w1.file.filter (walEntryCrcOk encRec), w1)

/-! ## Association lists (the embedding of Go maps) -/

/-- Lookup in a Go map modelled as an association list. -/
def alGet {κ α : Type} [BEq κ] (l : List (κ × α)) (k : κ) : Option α :=
  (l.find? (fun p => p.1 == k)).map (fun p => p.2)

/-- Map assignment `m[k] = v`: replace the first binding or append. -/
def alSet {κ α : Type} [BEq κ] (l : List (κ × α)) (k : κ) (v : α) :
    List (κ × α) :=
  match l with
  | [] => [(k, v)]
  | p :: rest => if p.1 == k then (k, v) :: rest else p :: alSet rest k v

/-- Map deletion `delete(m, k)`. -/
def alDel {κ α : Type} [BEq κ] (l : List (κ × α)) (k : κ) : List (κ × α) :=
  l.filter (fun p => !(p.1 == k))

/-! ## MVCC version manager (`internal/engine/mvcc.go`) -/

/-- A versioned record: transaction id, record pointer (nil for a
tombstone), tombstone flag, timestamp. -/
structure VersionedRecord where
  txID : Nat
  vrec : Option Record
  deleted : Bool
  timestamp : GoTime
deriving DecidableEq, Repr

/-- The MVCC manager: per-key version chains plus the global counter. -/
structure MVCCManager where
  versions : List (String × List VersionedRecord)
  counter : Nat
deriving DecidableEq, Repr

/-- A fresh MVCC manager. -/
def MVCCManager.empty : MVCCManager := ⟨[], 0⟩

/-- The version chain of a key (empty when absent). -/
def mvccChain (m : MVCCManager) (key : String) : List VersionedRecord :=
  (alGet m.versions key).getD []

/-- `AddVersion`: append a live version, then keep only the last 10
versions of the chain. -/
def mvccAddVersion (m : MVCCManager) (now : GoTime) (key : String)
    (record : Record) (txID : Nat) : MVCCManager :=
  let chain := mvccChain m key ++ [⟨txID, some record, false, now⟩]
  let chain := if chain.length > 10 then chain.drop (chain.length - 10)
    else chain
  { m with versions := alSet m.versions key chain }

/-- `MarkDeleted`: append a tombstone (no trimming). -/
def mvccMarkDeleted (m : MVCCManager) (now : GoTime) (key : String)
    (txID : Nat) : MVCCManager :=
  { m with versions :=
      alSet m.versions key (mvccChain m key ++ [⟨txID, none, true, now⟩]) }

/-- `MVCCManager.Get`: scan the chain newest to oldest for the first
non-tombstone entry with `tx ≤ as_of_tx`; not-found otherwise. -/
def mvccGet (m : MVCCManager) (key : String) (asOfTx : Nat) :
    Except GoErr (Option Record) :=
  let chain := mvccChain m key
  if chain.length = 0 then .error .keyNotFound
  else match chain.reverse.find? (fun v => v.txID ≤ asOfTx && !v.deleted) with
    | some v => .ok v.vrec
    | none => .error .keyNotFound

/-- `MVCCManager.GetLatest`: newest non-tombstone entry. -/
def mvccGetLatest (m : MVCCManager) (key : String) :
    Except GoErr (Option Record) :=
  let chain := mvccChain m key
  if chain.length = 0 then .error .keyNotFound
  else match chain.reverse.find? (fun v => !v.deleted) with
    | some v => .ok v.vrec
    | none => .error .keyNotFound

/-! ## Columnar store (`internal/pubsub/pubsub.go`, ColumnarStore) -/

/-- Column element types (`pkg/types.ColumnType`). -/
inductive ColumnType where
  | tInt
  | tFloat
  | tString
  | tJSON
  | tVector
deriving DecidableEq, Repr

/-- `inferColumnType`: type inferred from the first value written. -/
def inferColumnType : GoValue → ColumnType
  | .vInt _ => .tInt
  | .vInt64 _ => .tInt
  | .vInt32 _ => .tInt
  | .vFloat _ => .tFloat
  | .vFloat32 _ => .tFloat
  | .vStr _ => .tString
  | .vVecF32 _ => .tVector
  | _ => .tString

/-- Go type assertion `val.(int64)` with zero value on failure. -/
def assertInt64 : GoValue → Int
  | .vInt64 n => n
  | _ => 0

/-- Go type assertion `val.(float64)` with zero value on failure. -/
def assertFloat64 : GoValue → ℚ
  | .vFloat q => q
  | _ => 0

/-- Go type assertion `val.(string)` with zero value on failure. -/
def assertString : GoValue → String
  | .vStr s => s
  | _ => ""

/-- The value that survives `encodeValue` followed by `decodeValue`
for a column of the given type (the zstd byte transport in between is
bijective and elided; the lossy part — failed type assertions encode
as zero values, unsupported types encode as nothing and decode as
nil — is kept). -/
def encodeDecodeValue (t : ColumnType) (v : GoValue) : GoValue :=
  match t with
  | .tInt => .vInt64 (assertInt64 v)
  | .tFloat => .vFloat (assertFloat64 v)
  | .tString => .vStr (assertString v)
  | _ => .vNull

/-- A column with its running statistics. -/
structure Column where
  name : String
  ctype : ColumnType
  data : List GoValue
  compressed : Option (List GoValue)
  cmin : Option GoValue
  cmax : Option GoValue
  nullCount : Nat
  rowCount : Nat
deriving DecidableEq, Repr

/-- A sealed block descriptor. -/
structure CBlock where
  bid : Nat
  minKey : String
  maxKey : String
  rowCount : Nat
  createdAt : GoTime
deriving DecidableEq, Repr

/-- The columnar store. -/
structure CStore where
  columns : List (String × Column)
  blocks : List CBlock
  blockSize : Nat
  compression : Bool
deriving DecidableEq, Repr

/-- `NewColumnarStore`. -/
def CStore.new (blockSize : Nat) (compression : Bool) : CStore :=
  ⟨[], [], blockSize, compression⟩

/-- `compareValues`: three-way comparison that only understands `int`,
`float64` and `string`, dispatching on the FIRST argument's dynamic
type and treating a mismatched second argument as its zero value. -/
def compareValues (a b : GoValue) : Int :=
  match a with
  | .vInt ai =>
    let bi := match b with | .vInt n => n | _ => 0
    if ai < bi then -1 else if ai > bi then 1 else 0
  | .vFloat af =>
    let bf := match b with | .vFloat q => q | _ => 0
    if af < bf then -1 else if af > bf then 1 else 0
  | .vStr as_ =>
    let bs := match b with | .vStr s => s | _ => ""
    if as_ < bs then -1 else if as_ > bs then 1 else 0
  | _ => 0

/-- `sumValues`: accumulate integer values into a wrapping `int64` sum
and float values into a `float64` sum; promote to float when any float
was seen. -/
def wrap64 (n : Int) : Int := (n + 2 ^ 63) % 2 ^ 64 - 2 ^ 63

/-- One step of `sumValues` over the state (intSum, floatSum, hasFloat). -/
def sumValuesStep (st : Int × ℚ × Bool) (v : GoValue) : Int × ℚ × Bool :=
  match v with
  | .vInt n => (wrap64 (st.1 + n), st.2.1, st.2.2)
  | .vInt64 n => (wrap64 (st.1 + n), st.2.1, st.2.2)
  | .vInt32 n => (wrap64 (st.1 + n), st.2.1, st.2.2)
  | .vFloat q => (st.1, st.2.1 + q, true)
  | .vFloat32 q => (st.1, st.2.1 + q, true)
  | _ => st

/-- `sumValues` over a column's data. -/
def sumValues (data : List GoValue) : GoValue :=
  let st := data.foldl sumValuesStep (0, 0, false)
  if st.2.2 then .vFloat (st.2.1 + st.1) else .vInt64 st.1

/-- `updateColumnStats`: recompute min/max over the current data and
accumulate the null count (a no-op on an empty data array). -/
def updateColumnStats (col : Column) : Column :=
  match col.data with
  | [] => col
  | d0 :: _ =>
    col.data.foldl (fun c val =>
      if val = .vNull then { c with nullCount := c.nullCount + 1 }
      else
        let c := if compareValues val (c.cmin.getD .vNull) < 0
          then { c with cmin := some val } else c
        if compareValues val (c.cmax.getD .vNull) > 0
          then { c with cmax := some val } else c)
      { col with cmin := some d0, cmax := some d0 }

/-- Insert one record's contributions (`InsertBatch` body): the
synthetic `id` and `version` columns, each data field, and the
`vector` column when present. -/
def cstoreAddValue (cols : List (String × Column)) (name : String)
    (t : ColumnType) (v : GoValue) : List (String × Column) :=
  match alGet cols name with
  | some col => alSet cols name
      { col with data := col.data ++ [v], rowCount := col.rowCount + 1 }
  | none => alSet cols name
      ⟨name, t, [v], none, none, none, 0, 1⟩

/-- All column updates for one record. -/
def cstoreInsertRecord (cols : List (String × Column)) (rec : Record) :
    List (String × Column) :=
  let cols := cstoreAddValue cols "id" .tString (.vStr rec.ID)
  let cols := cstoreAddValue cols "version" .tInt (.vUInt64 rec.Version)
  let cols := rec.Data.foldl
    (fun cs kv => cstoreAddValue cs kv.1 (inferColumnType kv.2) kv.2) cols
  if rec.Vector.length > 0 then
    cstoreAddValue cols "vector" .tVector (.vVecF32 rec.Vector)
  else cols

/-- `compressBlock`: build the block descriptor, compress each column
when compression is on (releasing its data array), update statistics,
append the block. -/
def compressBlock (c : CStore) (now : GoTime) : CStore :=
  let idData := ((alGet c.columns "id").map Column.data).getD []
  let block : CBlock :=
    { bid := c.blocks.length
      minKey := match idData.head? with
        | some (.vStr s) => s
        | _ => ""
      maxKey := match idData.getLast? with
        | some (.vStr s) => s
        | _ => ""
      rowCount := idData.length
      createdAt := now }
  let cols := c.columns.map (fun p =>
    let col := p.2
    let col := if c.compression ∧ col.data ≠ [] then
        { col with compressed := some (col.data.map (encodeDecodeValue col.ctype))
                   data := [] }
      else col
    (p.1, updateColumnStats col))
  { c with columns := cols, blocks := c.blocks ++ [block] }

/-- `InsertBatch`: add each record's contributions, then seal a block
when the `id` column has reached the block size. -/
def insertBatch (c : CStore) (now : GoTime) (records : List Record) : CStore :=
  let cols := records.foldl cstoreInsertRecord c.columns
  let c := { c with columns := cols }
  match alGet c.columns "id" with
  | some idCol =>
    if idCol.data.length ≥ c.blockSize then compressBlock c now else c
  | none => c

/-- An aggregation result (value, row count, rows scanned). -/
structure AggResult where
  value : Option GoValue
  count : Int
  scannedRows : Int
deriving DecidableEq, Repr

/-- `decompressColumn`: the stored payload when compressed, else the
in-memory data. -/
def decompressColumn (col : Column) : List GoValue :=
  match col.compressed with
  | some payload => payload
  | none => col.data

/-- `ColumnarStore.Aggregate`. -/
def aggregate (c : CStore) (colName : String) (op : String) :
    Except String AggResult :=
  match alGet c.columns colName with
  | none => .error ("column " ++ colName ++ " not found")
  | some col =>
    let data := if col.compressed ≠ none then decompressColumn col
      else col.data
    if op = "COUNT" then
      .ok ⟨some (.vInt64 data.length), data.length, data.length⟩
    else if op = "SUM" then
      .ok ⟨some (sumValues data), data.length, data.length⟩
    else if op = "AVG" then
      let sum := sumValues data
      let value : Option GoValue :=
        if data.length > 0 then
          match sum with
          | .vFloat q => some (.vFloat (q / data.length))
          | _ => none
        else none
      .ok ⟨value, data.length, data.length⟩
    else if op = "MIN" then
      .ok ⟨col.cmin, data.length, data.length⟩
    else if op = "MAX" then
      .ok ⟨col.cmax, data.length, data.length⟩
    else .error ("unsupported operation: " ++ op)

/-! ## Go `container/heap` over a slice (`internal/vector/hnsw.go` heaps) -/

/-- A search candidate: node id and distance to the query. -/
structure Candidate where
  cid : String
  distance : ℚ
deriving DecidableEq, Repr

/-- The `MinHeap.Less` ordering (closest first). -/
def minLess (a b : Candidate) : Bool := a.distance < b.distance

/-- The `MaxHeap.Less` ordering (furthest first). -/
def maxLess (a b : Candidate) : Bool := a.distance > b.distance

/-- Swap two slice positions (`h.Swap(i, j)`). -/
def hswap {α : Type} (l : List α) (i j : Nat) : List α :=
  match l[i]?, l[j]? with
  | some x, some y => (l.set i y).set j x
  | _, _ => l

/-- `less` applied at two slice positions. -/
def lessAt {α : Type} (less : α → α → Bool) (l : List α) (i j : Nat) : Bool :=
  match l[i]?, l[j]? with
  | some x, some y => less x y
  | _, _ => false

/-- `container/heap`'s `up` (sift the element at `j` towards the root). -/
def siftUp {α : Type} (less : α → α → Bool) (l : List α) (j : Nat) :
    List α :=
  if h : (j - 1) / 2 = j then l
  else if lessAt less l j ((j - 1) / 2) then
    siftUp less (hswap l ((j - 1) / 2) j) ((j - 1) / 2)
  else l
termination_by j
decreasing_by omega

/-- `container/heap`'s `down` (sift the element at `i` towards the
leaves, within the first `n` positions; the child index `j` is the
smaller child when both are in range). -/
def siftDown {α : Type} (less : α → α → Bool) (l : List α) (i n : Nat) :
    List α :=
  if h : 2 * i + 1 ≥ n then l
  else if 2 * i + 2 < n ∧ lessAt less l (2 * i + 2) (2 * i + 1) then
    (if lessAt less l (2 * i + 2) i then
      siftDown less (hswap l i (2 * i + 2)) (2 * i + 2) n
    else l)
  else
    (if lessAt less l (2 * i + 1) i then
      siftDown less (hswap l i (2 * i + 1)) (2 * i + 1) n
    else l)
termination_by n - i
decreasing_by
  all_goals omega

/-- `heap.Push`: append, then sift up. -/
def heapPush {α : Type} (less : α → α → Bool) (l : List α) (x : α) :
    List α :=
  siftUp less (l ++ [x]) l.length

/-- `heap.Pop`: swap the root with the last element, sift down, remove
and return the last element.  Returns `none` on an empty heap (where
Go would panic; never reached by the callers below). -/
def heapPop {α : Type} (less : α → α → Bool) (l : List α) :
    Option α × List α :=
  match l with
  | [] => (none, [])
  | _ =>
    let n := l.length - 1
    let l2 := siftDown less (hswap l 0 n) 0 n
    (l2[n]?, l2.take n)

/-! ## HNSW index (`internal/vector/hnsw.go`)

The graph algorithms are embedded verbatim; the distance function is a
parameter `dist`, instantiated with an exact-rational model of
`CosineDistance` where a concrete metric is needed (the source
computes it in `float32`). The randomly drawn insertion level is an
oracle argument. -/

/-- A node of the proximity graph. -/
structure HNode where
  nid : String
  vec : List ℚ
  level : Nat
  friends : List (Nat × List String)
deriving DecidableEq, Repr

/-- The per-level adjacency list of a node (empty when the level is
absent from the map). -/
def friendsAt (n : HNode) (l : Nat) : List String :=
  (alGet n.friends l).getD []

/-- The HNSW index state. -/
structure HNSW where
  dim : Nat
  M : Nat
  efConst : Nat
  maxLevel : Nat
  enterPoint : Option String
  nodes : List (String × HNode)
  levelCount : List Nat
deriving DecidableEq, Repr

/-- `NewHNSWIndex`. -/
def HNSW.new (dim M ef : Nat) : HNSW :=
  ⟨dim, M, ef, 0, none, [], List.replicate 16 0⟩

/-- Increment `levelCount[l]` for `l = 0 .. level`. -/
def bumpLevelCount (lc : List Nat) (level : Nat) : List Nat :=
  (List.range (level + 1)).foldl (fun lc l => lc.set l (lc.getD l 0 + 1)) lc

/-- One pass of the greedy-descent inner loop over a captured friends
list: move to any strictly closer friend, remembering whether anything
changed. -/
def greedyRound (dist : List ℚ → List ℚ → ℚ) (nodes : List (String × HNode))
    (vector : List ℚ) (friendIDs : List String) (curr : String) (currDist : ℚ) :
    String × ℚ × Bool :=
  friendIDs.foldl (fun st fid =>
    match alGet nodes fid with
    | some friend =>
      let d := dist vector friend.vec
      if d < st.2.1 then (fid, d, true) else st
    | none => st) (curr, currDist, false)

/-- The greedy-descent `for changed` loop at one level (fuelled; the
distance strictly decreases on every repeated pass, so
`nodes.length + 1` passes always suffice). -/
def greedyLevel (dist : List ℚ → List ℚ → ℚ) (nodes : List (String × HNode))
    (vector : List ℚ) (l : Nat) : Nat → String × ℚ → String × ℚ
  | 0, st => st
  | fuel + 1, st =>
    let friendIDs := match alGet nodes st.1 with
      | some n => friendsAt n l
      | none => []
    let r := greedyRound dist nodes vector friendIDs st.1 st.2
    if r.2.2 then greedyLevel dist nodes vector l fuel (r.1, r.2.1)
    else (r.1, r.2.1)

/-- Greedy descent from `fromLevel` down to `toLevel + 1`. -/
def greedyDescend (dist : List ℚ → List ℚ → ℚ)
    (nodes : List (String × HNode)) (vector : List ℚ)
    (fromLevel toLevel : Nat) (st : String × ℚ) : String × ℚ :=
  ((List.range (fromLevel - toLevel)).map (fun i => fromLevel - i)).foldl
    (fun st l => greedyLevel dist nodes vector l (nodes.length + 1) st) st

/-- State of one `searchLayer` run. -/
structure LayerSearch where
  visited : List String
  cands : List Candidate
  results : List Candidate
deriving Repr

/-- Neighbour expansion for one popped candidate. -/
def expandNeighbors (dist : List ℚ → List ℚ → ℚ)
    (nodes : List (String × HNode)) (query : List ℚ) (ef : Nat)
    (friendIDs : List String) (st : LayerSearch) : LayerSearch :=
  friendIDs.foldl (fun st fid =>
    if st.visited.contains fid then st
    else
      let st := { st with visited := st.visited ++ [fid] }
      match alGet nodes fid with
      | none => st
      | some friend =>
        let d := dist query friend.vec
        let worst := (st.results.head?.map Candidate.distance).getD 0
        if st.results.length < ef ∨ d < worst then
          let cands := heapPush minLess st.cands ⟨fid, d⟩
          let results := heapPush maxLess st.results ⟨fid, d⟩
          let results := if results.length > ef then (heapPop maxLess results).2
            else results
          { st with cands := cands, results := results }
        else st) st

/-- The main `searchLayer` loop (fuelled; every iteration pops one
candidate and every node is pushed at most once, so fuel
`nodes.length + 2` suffices). -/
def layerLoop (dist : List ℚ → List ℚ → ℚ) (nodes : List (String × HNode))
    (query : List ℚ) (ef level : Nat) : Nat → LayerSearch → LayerSearch
  | 0, st => st
  | fuel + 1, st =>
    match st.cands with
    | [] => st
    | _ :: _ =>
      let (currOpt, cands') := heapPop minLess st.cands
      let st := { st with cands := cands' }
      match currOpt with
      | none => st
      | some curr =>
        let stop : Bool := match st.results.head? with
          | some worst => decide (worst.distance < curr.distance)
          | none => false
        if stop then st
        else match alGet nodes curr.cid with
          | none => layerLoop dist nodes query ef level fuel st
          | some currNode =>
            layerLoop dist nodes query ef level fuel
              (expandNeighbors dist nodes query ef (friendsAt currNode level) st)

/-- Drain the result max-heap into an ascending list. -/
def drainResults : Nat → List Candidate → List Candidate → List Candidate
  | 0, _, acc => acc
  | _ + 1, [], acc => acc
  | fuel + 1, res, acc =>
    let (x, res') := heapPop maxLess res
    match x with
    | some c => drainResults fuel res' (c :: acc)
    | none => acc

/-- `searchLayer`: best-first search of one level, returning up to `ef`
candidates sorted ascending by distance. -/
def searchLayer (dist : List ℚ → List ℚ → ℚ) (nodes : List (String × HNode))
    (query : List ℚ) (entry : HNode) (ef level : Nat) : List Candidate :=
  let d0 := dist query entry.vec
  let st0 : LayerSearch :=
    { visited := [entry.nid]
      cands := heapPush minLess [] ⟨entry.nid, d0⟩
      results := heapPush maxLess [] ⟨entry.nid, d0⟩ }
  let st := layerLoop dist nodes query ef level (nodes.length + 2) st0
  drainResults (st.results.length + 1) st.results []

/-- `selectNeighbors`: the `M` closest of a sorted candidate list. -/
def selectNeighbors (candidates : List Candidate) (M : Nat) : List String :=
  (candidates.take M).map Candidate.cid

/-- The exchange sort used by `selectNeighborsById` (inner loop). -/
def exchSortInner (ps : List (String × ℚ)) (i : Nat) : List (String × ℚ) :=
  (List.range' (i + 1) (ps.length - (i + 1))).foldl
    (fun ps j => if lessAt (fun a b => a.2 < b.2) ps j i then hswap ps i j
      else ps) ps

/-- The exchange sort used by `selectNeighborsById`. -/
def exchSort (ps : List (String × ℚ)) : List (String × ℚ) :=
  (List.range ps.length).foldl exchSortInner ps

/-- `selectNeighborsById`: look up each id (an id missing from the node
arena is left as the ZERO-VALUED pair `("", 0)`), sort by distance,
keep the `M` closest. -/
def selectNeighborsById (dist : List ℚ → List ℚ → ℚ)
    (nodes : List (String × HNode)) (query : List ℚ) (ids : List String)
    (M : Nat) : List String :=
  let pairs := ids.map (fun id =>
    match alGet nodes id with
    | some node => (id, dist query node.vec)
    | none => ("", (0 : ℚ)))
  ((exchSort pairs).take M).map Prod.fst

/-- The per-level insertion step of `Add`: search the layer, connect the
new node, add reciprocal edges, prune overfull neighbours. -/
def addAtLevel (dist : List ℚ → List ℚ → ℚ) (hM efConst : Nat) (id : String)
    (vector : List ℚ) (l : Nat)
    (st : List (String × HNode) × List (Nat × List String) × String) :
    List (String × HNode) × List (Nat × List String) × String :=
  let (nodes, nodeFriends, curr) := st
  match alGet nodes curr with
  | none => (nodes, nodeFriends, curr)
  | some currNode =>
    let candidates := searchLayer dist nodes vector currNode efConst l
    let cap := if l = 0 then hM * 2 else hM
    let friends := selectNeighbors candidates cap
    let nodeFriends := alSet nodeFriends l friends
    let nodes := friends.foldl (fun nodes fid =>
      match alGet nodes fid with
      | none => nodes
      | some friend =>
        let fl := friendsAt friend l ++ [id]
        let nodes := alSet nodes fid
          { friend with friends := alSet friend.friends l fl }
        if l = 0 ∧ fl.length > hM * 2 then
          let pruned := selectNeighborsById dist nodes friend.vec fl (hM * 2)
          alSet nodes fid { friend with friends := alSet friend.friends l pruned }
        else if l > 0 ∧ fl.length > hM then
          let pruned := selectNeighborsById dist nodes friend.vec fl hM
          alSet nodes fid { friend with friends := alSet friend.friends l pruned }
        else nodes) nodes
    let curr := match candidates.head? with
      | some c => c.cid
      | none => curr
    (nodes, nodeFriends, curr)

/-- `HNSWIndex.Add` with the sampled `level` as an oracle argument (the
source draws it in `randomLevel`, which caps at 15; a larger level
would make the `levelCount` update panic, modelled as `nilPanic`). -/
def hnswAdd (dist : List ℚ → List ℚ → ℚ) (h : HNSW) (id : String)
    (vector : List ℚ) (level : Nat) : Except GoErr HNSW :=
  if vector.length ≠ h.dim then .error .dimensionMismatch
  else if (alGet h.nodes id).isSome then .error .nodeExists
  else if 16 ≤ level then .error .nilPanic
  else match h.enterPoint with
  | none =>
    .ok { h with enterPoint := some id,
                 nodes := alSet h.nodes id ⟨id, vector, level, []⟩,
                 maxLevel := level,
                 levelCount := bumpLevelCount h.levelCount level }
  | some ep =>
    match alGet h.nodes ep with
    | none => .error .nilPanic
    | some epNode =>
      let st0 := greedyDescend dist h.nodes vector h.maxLevel level
        (ep, dist vector epNode.vec)
      let lmin := min level h.maxLevel
      let finSt := ((List.range (lmin + 1)).map (fun i => lmin - i)).foldl
        (fun st l => addAtLevel dist h.M h.efConst id vector l st)
        (h.nodes, ([] : List (Nat × List String)), st0.1)
      let (nodes, nodeFriends, _) := finSt
      let (maxLevel, enterPoint) :=
        if h.maxLevel < level then (level, some id)
        else (h.maxLevel, h.enterPoint)
      .ok { h with
        maxLevel := maxLevel,
        enterPoint := enterPoint,
        nodes := alSet nodes id ⟨id, vector, level, nodeFriends⟩,
        levelCount := bumpLevelCount h.levelCount level }

/-- `HNSWIndex.Delete`: unlink the node from every neighbour listed in
its own adjacency, re-elect the entry point if needed, drop the node. -/
def hnswDelete (h : HNSW) (id : String) : Except GoErr HNSW :=
  match alGet h.nodes id with
  | none => .error .keyNotFound
  | some node =>
    let nodes := node.friends.foldl (fun nodes lf =>
      lf.2.foldl (fun nodes fid =>
        match alGet nodes fid with
        | none => nodes
        | some friend =>
          let kept := (friendsAt friend lf.1).filter (fun x => x ≠ id)
          alSet nodes fid { friend with friends := alSet friend.friends lf.1 kept })
        nodes) h.nodes
    let ep := if h.enterPoint = some id then
        (nodes.find? (fun p => p.2.nid ≠ id)).map Prod.fst
      else h.enterPoint
    .ok { h with nodes := alDel nodes id, enterPoint := ep }

/-! ## The main engine (`internal/engine/engine.go`, KviEngine) -/

/-- Engine modes (`pkg/types.Mode`). -/
inductive EngineMode where
  | memory
  | disk
  | columnarMode
  | vectorMode
  | hybridMode
deriving DecidableEq, Repr

/-- A B-tree item (`BTreeItem`): ordering is by key only. -/
structure BTreeItem where
  key : String
  version : Nat
deriving DecidableEq, Repr

/-- `btree.ReplaceOrInsert` on the ordered index, modelled as a sorted
association-by-key list. -/
def btreeInsert : List BTreeItem → BTreeItem → List BTreeItem
  | [], it => [it]
  | x :: rest, it =>
    if it.key < x.key then it :: x :: rest
    else if it.key = x.key then it :: rest
    else x :: btreeInsert rest it

/-- `btree.Delete` by key. -/
def btreeDelete (l : List BTreeItem) (key : String) : List BTreeItem :=
  l.filter (fun it => it.key ≠ key)

/-- The engine state.  Mode-specific components are `Option`s, `none`
matching the Go nil pointers.  Memory-table values are `Option Record`
to model nil record pointers replayed from the WAL. -/
structure KviEngine where
  mode : EngineMode
  enableChecksum : Bool
  memTable : List (String × Option Record)
  index : List BTreeItem
  columnarStore : Option CStore
  vectorIndex : Option HNSW
  wal : Option WalState
  mvcc : MVCCManager
deriving Repr

/-- `KviEngine.Get`. -/
def engineGet (e : KviEngine) (now : GoTime) (key : String) :
    Except GoErr Record :=
  match alGet e.memTable key with
  | none => .error .keyNotFound
  | some none => .error .nilPanic
  | some (some r) =>
    if match r.TTL with | some t => now.after t | none => false then
      .error .keyNotFound
    else if e.mode ≠ .memory ∧ e.enableChecksum ∧ verifyChecksum r = false then
      .error .dataCorruption
    else .ok r

/-- The field-stamping prologue of `KviEngine.Put`: default the id to
the key, assign creation/update instants, the nanosecond version and
the checksum. -/
def putStamp (now : GoTime) (key : String) (value : Record) : Record :=
  let v1 := if value.ID = "" then { value with ID := key } else value
  let v2 := { v1 with
    CreatedAt := if v1.CreatedAt.isZero then now else v1.CreatedAt,
    UpdatedAt := now,
    Version := u64OfNanos now.nanos }
  { v2 with Checksum := calculateChecksum v2 }

/-- `KviEngine.Put`.  Returns the post state together with the stored
record or the error; on a vector-index failure the earlier tier
updates (WAL, MVCC, memory, index, columnar) remain applied, exactly
as in the source.  `encRec` is the record serialiser used by the WAL;
`level` is the oracle for the HNSW level draw. -/
def enginePut (encRec : Option Record → String)
    (dist : List ℚ → List ℚ → ℚ) (e : KviEngine) (now : GoTime)
    (level : Nat) (key : String) (value : Record) :
    KviEngine × Except GoErr Record :=
  let v3 := putStamp now key value
  let wal := e.wal.map (fun w =>
    (walAppend encRec w now ⟨0, 0, .opPut, key, some v3, 0⟩).1)
  let mvcc := mvccAddVersion e.mvcc now key v3 v3.Version
  let memTable := alSet e.memTable key (some v3)
  let index := btreeInsert e.index ⟨key, v3.Version⟩
  let columnarStore := e.columnarStore.map (fun c => insertBatch c now [v3])
  let e1 : KviEngine := { e with
    wal := wal, mvcc := mvcc, memTable := memTable, index := index,
    columnarStore := columnarStore }
  match e.vectorIndex with
  | some hx =>
    if v3.Vector.length > 0 then
      match hnswAdd dist hx key v3.Vector level with
      | .ok hx2 => ({ e1 with vectorIndex := some hx2 }, .ok v3)
      | .error err => (e1, .error err)
    else (e1, .ok v3)
  | none => (e1, .ok v3)

/-- `KviEngine.Delete`. -/
def engineDelete (encRec : Option Record → String) (e : KviEngine)
    (now : GoTime) (key : String) : KviEngine :=
  let wal := e.wal.map (fun w =>
    (walAppend encRec w now ⟨0, 0, .opDelete, key, none, 0⟩).1)
  { e with
    wal := wal,
    mvcc := mvccMarkDeleted e.mvcc now key (u64OfNanos now.nanos),
    memTable := alDel e.memTable key,
    index := btreeDelete e.index key }

/-- The `Scan` iterator body over the items with key `≥ start`, in
index order: stop at the end bound or the limit, collect live records
present in the memory table. -/
def scanLoop (memTable : List (String × Option Record)) (now : GoTime)
    (endKey : String) (limit : Int) :
    List BTreeItem → List Record × Int → Except GoErr (List Record × Int)
  | [], acc => .ok acc
  | it :: rest, acc =>
    if endKey ≠ "" ∧ it.key ≥ endKey then .ok acc
    else if limit > 0 ∧ acc.2 ≥ limit then .ok acc
    else match alGet memTable it.key with
      | none => scanLoop memTable now endKey limit rest acc
      | some none => .error .nilPanic
      | some (some rec_) =>
        if match rec_.TTL with | some t => !(now.after t) | none => true then
          scanLoop memTable now endKey limit rest (acc.1 ++ [rec_], acc.2 + 1)
        else scanLoop memTable now endKey limit rest acc

/-- `KviEngine.Scan`: ascending traversal of the index from `start`,
bounded by `[start, end)` and the optional limit. -/
def engineScan (e : KviEngine) (now : GoTime) (start endKey : String)
    (limit : Int) : Except GoErr (List Record) :=
  (scanLoop e.memTable now endKey limit
    (e.index.filter (fun it => start ≤ it.key)) ([], 0)).map Prod.fst

/-- A snapshot value (`pkg/types.Snapshot`). -/
structure EngSnapshot where
  version : Nat
  records : List (String × Record)
  createdNanos : Int
  checksum : Nat
deriving DecidableEq, Repr

/-- `KviEngine.Snapshot`: deep-copy the memory table, stamp it, and
checksum `(version, created_at_nanos, record_count)`.  Dereferencing a
nil record pointer would panic (`nilPanic`). -/
def engineSnapshot (e : KviEngine) (now : GoTime) :
    Except GoErr EngSnapshot :=
  if e.memTable.all (fun p => p.2.isSome) then
    let records := e.memTable.filterMap
      (fun p => p.2.map (fun r => (p.1, r)))
    let version := u64OfNanos now.nanos
    .ok { version := version
          records := records
          createdNanos := now.nanos
          checksum := calculateSnapshotChecksum version now.nanos
            records.length }
  else .error .nilPanic

/-- `KviEngine.Restore`: verify the snapshot CRC, replace the memory
table, rebuild the ordered index. -/
def engineRestore (e : KviEngine) (snap : EngSnapshot) :
    Except GoErr KviEngine :=
  if snap.checksum ≠ calculateSnapshotChecksum snap.version
      snap.createdNanos snap.records.length then
    .error .dataCorruption
  else
    .ok { e with
      memTable := snap.records.map (fun p => (p.1, some p.2)),
      index := snap.records.foldl
        (fun ix p => btreeInsert ix ⟨p.1, p.2.Version⟩) [] }

/-- `recoverFromWAL` replay: puts repopulate the memory table (storing
the entry's record pointer as-is, nil included), deletes remove; no
other structure is touched. -/
def engineReplay (e : KviEngine) (entries : List LogEntry) : KviEngine :=
  entries.foldl (fun e entry =>
    match entry.op with
    | .opPut => { e with memTable := alSet e.memTable entry.key entry.record }
    | .opDelete => { e with memTable := alDel e.memTable entry.key }
    | _ => e) e

/-- `NewEngine` in disk mode with WAL enabled: fresh structures, then
WAL recovery (which first flushes and reads the log). -/
def newDiskEngine (encRec : Option Record → String) (w : WalState) :
    KviEngine :=
  let e0 : KviEngine :=
    { mode := .disk, enableChecksum := true, memTable := [], index := [],
      columnarStore := none, vectorIndex := none, wal := none,
      mvcc := MVCCManager.empty }
  let (entries, w1) := walReadAll encRec w
  { engineReplay e0 entries with wal := some w1 }

/-- A fresh pure-memory engine (`NewMemoryEngine`):
checksums are configured on but ignored by `Get` in memory mode. -/
def newMemoryEngine : KviEngine :=
  { mode := .memory, enableChecksum := true, memTable := [], index := [],
    columnarStore := none, vectorIndex := none, wal := none,
    mvcc := MVCCManager.empty }

/-! ## Hybrid engine (`HybridEngine`, with its Memory/Vector tier
engines).  The bounded-channel send with 100 ms timeout is modelled by
the oracle `enqueueOk : Bool` — whether the send completed within the
wait. -/

/-- The `MemoryEngine` tier: a plain map of records. -/
structure MemEngine where
  records : List (String × Record)
deriving Repr

/-- The `VectorEngine` tier: records plus an HNSW index. -/
structure VecEngine where
  records : List (String × Record)
  index : HNSW
deriving Repr

/-- The `DiskEngine` tier: the ordered B-tree of records, keyed by id
(the WAL side is irrelevant to the hybrid claims and elided here). -/
structure HDiskEngine where
  tree : List (String × Record)
deriving Repr

/-- `DiskEngine.Get`. -/
def hdiskGet (d : HDiskEngine) (key : String) : Except String Record :=
  match alGet d.tree key with
  | some r => .ok r
  | none => .error ("record not found for key: " ++ key)

/-- The `HybridEngine`: memory, vector and disk tiers plus the bounded
async write channel feeding the disk and columnar tiers (the
background worker is a separate goroutine and not part of a single
`Put` step). -/
structure HybridEngine where
  memory : MemEngine
  vectorStore : VecEngine
  disk : HDiskEngine
  writeChan : List Record
deriving Repr

/-- `MemoryEngine.Get`: plain lookup, no TTL or checksum logic. -/
def memEngineGet (m : MemEngine) (key : String) : Except String Record :=
  match alGet m.records key with
  | some r => .ok r
  | none => .error ("record not found for key: " ++ key)

/-- `VectorEngine.Put`: requires a `vector` entry of type `[]float32`
in the data map; stores the record and feeds the index (whose error is
discarded). -/
def vecEnginePut (dist : List ℚ → List ℚ → ℚ) (v : VecEngine)
    (key : String) (record : Record) (level : Nat) :
    Except String VecEngine :=
  match alGet record.Data "vector" with
  | none => .error "record missing 'vector' key"
  | some (.vVecF32 vec) =>
    let index := match hnswAdd dist v.index key vec level with
      | .ok ix => ix
      | .error _ => v.index
    .ok { records := alSet v.records key record, index := index }
  | some _ => .error "vector must be []float32"

/-- `HybridEngine.Put`: synchronous memory write, synchronous vector
write when the record carries a `vector` data entry, then the bounded
enqueue; a timed-out enqueue returns the backpressure error with the
earlier tier writes left in place. -/
def hybridPut (dist : List ℚ → List ℚ → ℚ) (h : HybridEngine) (key : String)
    (record : Record) (level : Nat) (enqueueOk : Bool) :
    HybridEngine × Except String Unit :=
  let h1 := { h with memory := ⟨alSet h.memory.records key record⟩ }
  match alGet record.Data "vector" with
  | some _ =>
    match vecEnginePut dist h1.vectorStore key record level with
    | .error e => (h1, .error e)
    | .ok vs =>
      let h2 := { h1 with vectorStore := vs }
      if enqueueOk then
        ({ h2 with writeChan := h2.writeChan ++ [record] }, .ok ())
      else (h2, .error "async write queue full")
  | none =>
    if enqueueOk then
      ({ h1 with writeChan := h1.writeChan ++ [record] }, .ok ())
    else (h1, .error "async write queue full")

/-- `HybridEngine.Get`: memory first; on a miss, fall back to disk and
repopulate memory on a hit. -/
def hybridGet (h : HybridEngine) (key : String) :
    (HybridEngine × Except String Record) :=
  match memEngineGet h.memory key with
  | .ok r => (h, .ok r)
  | .error _ =>
    match hdiskGet h.disk key with
    | .ok r => ({ h with memory := ⟨alSet h.memory.records key r⟩ }, .ok r)
    | .error e => (h, .error e)

/-! ## Exact cosine distance

`CosineDistance` computes `1 - a·b / (sqrt(a·a) * sqrt(b·b))` in
`float32`.  The model below is exact over the rationals whenever the
squared norms are perfect squares; every concrete vector fed to it in
this file has a perfect-square norm, on which it agrees with the
source's formula. -/

/-- The dot product accumulated in `CosineDistance`'s loop. -/
def dotQ (a b : List ℚ) : ℚ := (List.zip a b).foldl (fun s p => s + p.1 * p.2) 0

/-- Rational square root, exact on ratios of perfect squares. -/
def ratSqrt (q : ℚ) : ℚ := (Nat.sqrt q.num.toNat : ℚ) / (Nat.sqrt q.den : ℚ)

/-- `CosineDistance` (zero norms give maximal distance 1). -/
def cosineDistQ (a b : List ℚ) : ℚ :=
  let dot := dotQ a b
  let normA := dotQ a a
  let normB := dotQ b b
  let np := ratSqrt normA * ratSqrt normB
  if np = 0 then 1 else 1 - dot / np

/-- Extract the payload of a successful `Except`, with a default. -/
def okOr {ε α : Type} (d : α) : Except ε α → α
  | .ok a => a
  | .error _ => d

/-- Whether an `Except` is a success. -/
def isOkE {ε α : Type} : Except ε α → Bool
  | .ok _ => true
  | .error _ => false

/-! ## Generic association-list lemmas -/

theorem alGet_alSet_self {κ α : Type} [BEq κ] [LawfulBEq κ]
    (l : List (κ × α)) (k : κ) (v : α) : alGet (alSet l k v) k = some v := by
  induction l with
  | nil => simp [alGet, alSet, List.find?]
  | cons p rest ih =>
    by_cases h : p.1 == k
    · simp [alSet, h, alGet, List.find?]
    · simp only [alSet, h]
      simpa [alGet, List.find?, h] using ih

theorem alGet_alSet_ne {κ α : Type} [BEq κ] [LawfulBEq κ]
    (l : List (κ × α)) (k k' : κ) (v : α) (hne : k' ≠ k) :
    alGet (alSet l k v) k' = alGet l k' := by
  induction l with
  | nil =>
    simp only [alSet, alGet, List.find?]
    have : (k == k') = false := by
      simpa using fun h => hne h.symm
    simp [this]
  | cons p rest ih =>
    by_cases h : p.1 == k
    · have hk : p.1 = k := by simpa using h
      have : (k == k') = false := by
        simpa using fun h => hne h.symm
      simp [alSet, h, alGet, List.find?, this, hk]
    · by_cases h2 : p.1 == k'
      · simp [alSet, h, alGet, List.find?, h2]
      · simp only [alSet, h]
        simpa [alGet, List.find?, h2] using ih

theorem mem_alSet {κ α : Type} [BEq κ] [LawfulBEq κ]
    (l : List (κ × α)) (k : κ) (v : α) (p : κ × α)
    (hp : p ∈ alSet l k v) : p ∈ l ∨ p = (k, v) := by
  induction l with
  | nil => simpa [alSet] using hp
  | cons q rest ih =>
    by_cases h : q.1 == k
    · simp only [alSet, h, if_pos] at hp
      rcases List.mem_cons.mp hp with h1 | h1
      · right; exact h1
      · left; exact List.mem_cons_of_mem _ h1
    · simp only [alSet, h] at hp
      rcases List.mem_cons.mp hp with h1 | h1
      · left; simp [h1]
      · rcases ih h1 with h2 | h2
        · left; exact List.mem_cons_of_mem _ h2
        · right; exact h2

theorem alGet_mem {κ α : Type} [BEq κ] [LawfulBEq κ]
    (l : List (κ × α)) (k : κ) (v : α) (h : alGet l k = some v) :
    (k, v) ∈ l := by
  simp only [alGet, Option.map_eq_some'] at h
  obtain ⟨p, hp, hv⟩ := h
  have hmem := List.mem_of_find?_eq_some hp
  have hpred := List.find?_some hp
  have : p.1 = k := by simpa using hpred
  have : p = (k, v) := by
    cases p
    simp_all
  exact this ▸ hmem

/-! ## Concrete fixtures used by counterexamples and witnesses -/

/-- A record without a `vector` data entry. -/
def recNoVec : Record :=
  ⟨"k", [("a", .vStr "v")], [], 0, none, 0, ⟨0, "c"⟩, ⟨0, "u"⟩⟩

/-- A record with a `[]float32`-typed `vector` data entry. -/
def recWithVec : Record :=
  ⟨"k", [("vector", .vVecF32 [1, 0])], [], 0, none, 0, ⟨0, "c"⟩, ⟨0, "u"⟩⟩

/-- A fresh hybrid engine (dimension 2, M = 1, ef = 10). -/
def hyb0 : HybridEngine := ⟨⟨[]⟩, ⟨[], HNSW.new 2 1 10⟩, ⟨[]⟩, []⟩

/-- Guard used by the hybrid claims: the record either carries no
`vector` data entry, or carries one of type `[]float32` (so the vector
tier's type assertion succeeds). -/
def vectorEntryOk (record : Record) : Bool :=
  match alGet record.Data "vector" with
  | some (.vVecF32 _) => true
  | none => true
  | some _ => false

/-! ## Claim C7: hybrid put backpressure -/

/-- C7 counterexample: a hybrid put whose bounded enqueue times out
fails with the error message "async write queue full" — not
"async queue full" as the claim states. -/
theorem C7_counterexample :
    (hybridPut cosineDistQ hyb0 "k" recNoVec 0 false).2 =
      .error "async write queue full" ∧
    "async write queue full" ≠ "async queue full" := by
  constructor
  · rfl
  · decide

/-- C7 (amended): a hybrid put that reaches the bounded enqueue (the
memory tier always succeeds and the vector tier succeeds under
`vectorEntryOk`) fails with the error "async write queue full" when
the enqueue does not complete within the bounded wait, and returns
success when it does. -/
theorem C7_hybrid_put_backpressure (dist : List ℚ → List ℚ → ℚ)
    (h : HybridEngine) (key : String) (record : Record) (level : Nat)
    (hvec : vectorEntryOk record = true) :
    (hybridPut dist h key record level false).2 =
      .error "async write queue full" ∧
    (hybridPut dist h key record level true).2 = .ok () := by
  unfold vectorEntryOk at hvec
  unfold hybridPut
  cases hv : alGet record.Data "vector" with
  | none => simp [hv]
  | some v =>
    cases v <;> simp [hv] at hvec ⊢
    simp [vecEnginePut, hv]

/-- C7 witness: the backpressure theorem applied to a concrete engine
and a record carrying a vector entry. -/
theorem C7_witness :
    (hybridPut cosineDistQ hyb0 "k" recWithVec 0 false).2 =
      .error "async write queue full" ∧
    (hybridPut cosineDistQ hyb0 "k" recWithVec 0 true).2 = .ok () :=
  C7_hybrid_put_backpressure cosineDistQ hyb0 "k" recWithVec 0 (by decide)

/-! ## Claim C10: a queue-full put has already written the earlier
tiers and rolls nothing back -/

/-- C10: when a hybrid put fails with the queue-full error, the record
is already in the memory tier (and in the vector tier when it carries
a vector entry), so a subsequent get returns it; no tier is rolled
back. -/
theorem C10_queue_full_no_rollback (dist : List ℚ → List ℚ → ℚ)
    (h : HybridEngine) (key : String) (record : Record) (level : Nat)
    (hvec : vectorEntryOk record = true) :
    (hybridPut dist h key record level false).2 =
      .error "async write queue full" ∧
    (hybridGet (hybridPut dist h key record level false).1 key).2 =
      .ok record ∧
    alGet (hybridPut dist h key record level false).1.memory.records key =
      some record ∧
    (∀ v, alGet record.Data "vector" = some v →
      alGet (hybridPut dist h key record level false).1.vectorStore.records
        key = some record) := by
  unfold vectorEntryOk at hvec
  unfold hybridPut
  cases hv : alGet record.Data "vector" with
  | none =>
    refine ⟨rfl, ?_, ?_, ?_⟩
    · simp [hybridGet, memEngineGet, alGet_alSet_self]
    · simpa using alGet_alSet_self h.memory.records key record
    · intro v hv2
      exact absurd hv2 (by simp)
  | some v =>
    cases v <;> simp [hv] at hvec ⊢
    refine ⟨by simp [vecEnginePut, hv], ?_, ?_, ?_⟩
    · simp [vecEnginePut, hv, hybridGet, memEngineGet, alGet_alSet_self]
    · simp [vecEnginePut, hv]
      simpa using alGet_alSet_self h.memory.records key record
    · simp [vecEnginePut, hv]
      exact alGet_alSet_self _ key record

/-- C10 witness: the theorem applied to a concrete engine and a
record carrying a vector entry. -/
theorem C10_witness :
    (hybridPut cosineDistQ hyb0 "k" recWithVec 0 false).2 =
      .error "async write queue full" ∧
    (hybridGet (hybridPut cosineDistQ hyb0 "k" recWithVec 0 false).1 "k").2 =
      .ok recWithVec ∧
    alGet (hybridPut cosineDistQ hyb0 "k" recWithVec 0 false).1.memory.records
      "k" = some recWithVec ∧
    (∀ v, alGet recWithVec.Data "vector" = some v →
      alGet (hybridPut cosineDistQ hyb0 "k" recWithVec 0
        false).1.vectorStore.records "k" = some recWithVec) :=
  C10_queue_full_no_rollback cosineDistQ hyb0 "k" recWithVec 0 (by decide)

/-! ## Claim C8: snapshot / restore round trip -/

/-- Snapshot records of a nil-free memory table rebuild it exactly. -/
theorem snapshotRecords_roundtrip (l : List (String × Option Record))
    (h : l.all (fun p => p.2.isSome) = true) :
    (l.filterMap (fun p => p.2.map (fun r => (p.1, r)))).map
      (fun p => (p.1, some p.2)) = l := by
  induction l with
  | nil => rfl
  | cons p rest ih =>
    simp only [List.all_cons, Bool.and_eq_true] at h
    obtain ⟨h1, h2⟩ := h
    cases p with
    | mk k v =>
      cases v with
      | none => simp at h1
      | some r => simp [ih h2]

/-- C8: restoring the snapshot of any engine state succeeds (the CRC
over version, creation nanoseconds and record count verifies) and is
the identity on the memory table. -/
theorem C8_snapshot_restore_identity (e : KviEngine) (now : GoTime)
    (snap : EngSnapshot) (hsnap : engineSnapshot e now = .ok snap) :
    ∃ e', engineRestore e snap = .ok e' ∧ e'.memTable = e.memTable ∧
      ∀ k, alGet e'.memTable k = alGet e.memTable k := by
  unfold engineSnapshot at hsnap
  split at hsnap
  case isFalse => exact absurd hsnap (by simp)
  case isTrue hall =>
    simp only [Except.ok.injEq] at hsnap
    subst hsnap
    unfold engineRestore
    rw [if_neg (by simp)]
    refine ⟨_, rfl, ?_, ?_⟩
    · simpa using snapshotRecords_roundtrip e.memTable hall
    · intro k
      have hm := snapshotRecords_roundtrip e.memTable hall
      simp [hm]

/-- C8 witness: snapshot and restore of a one-record memory engine. -/
theorem C8_witness :
    ∃ snap e',
      engineSnapshot { newMemoryEngine with memTable := [("k", some recNoVec)] }
        ⟨0, "t"⟩ = .ok snap ∧
      engineRestore { newMemoryEngine with memTable := [("k", some recNoVec)] }
        snap = .ok e' ∧
      e'.memTable = [("k", some recNoVec)] := by
  obtain ⟨e', h1, h2, _⟩ := C8_snapshot_restore_identity
    { newMemoryEngine with memTable := [("k", some recNoVec)] } ⟨0, "t"⟩
    (okOr ⟨0, [], 0, 0⟩ (engineSnapshot
      { newMemoryEngine with memTable := [("k", some recNoVec)] } ⟨0, "t"⟩))
    (by decide)
  exact ⟨_, e', by decide, h1, h2⟩

/-! ## Claim C2: WAL append/flush/read_all round trip -/

/-- Append a batch of (clock, entry) pairs one by one, collecting the
stamped entries the caller's pointers end up holding. -/
def walAppendAll (encRec : Option Record → String) (w : WalState) :
    List (GoTime × LogEntry) → WalState × List LogEntry
  | [] => (w, [])
  | it :: rest =>
    let r := walAppend encRec w it.1 it.2
    let rr := walAppendAll encRec r.1 rest
    (rr.1, r.2 :: rr.2)

/-- The entries a WAL state holds, flushed or still buffered. -/
def walPending (w : WalState) : List LogEntry := w.file ++ w.buffer

theorem fst_walReadAll (encRec : Option Record → String) (w : WalState) :
    (walReadAll encRec w).1 =
      (walPending w).filter (walEntryCrcOk encRec) := rfl

theorem walPending_append (encRec : Option Record → String) (w : WalState)
    (now : GoTime) (e : LogEntry) :
    walPending (walAppend encRec w now e).1 =
      walPending w ++ [(walAppend encRec w now e).2] := by
  simp only [walAppend, walPending, walFlush]
  split <;> simp

theorem snd_walAppend (encRec : Option Record → String) (w : WalState)
    (now : GoTime) (e : LogEntry) :
    (walAppend encRec w now e).2 =
      ⟨u64OfNanos now.nanos, now.nanos, e.op, e.key, e.record,
        crc32IEEE (marshalLogEntry encRec
          ⟨u64OfNanos now.nanos, now.nanos, e.op, e.key, e.record,
            e.checksum⟩)⟩ := by
  simp only [walAppend]
  split <;> rfl

theorem crcOk_walAppend (encRec : Option Record → String) (w : WalState)
    (now : GoTime) (e : LogEntry) (hck : e.checksum = 0) :
    walEntryCrcOk encRec (walAppend encRec w now e).2 = true := by
  rw [snd_walAppend, hck]
  simp [walEntryCrcOk]

theorem walAppendAll_spec (encRec : Option Record → String)
    (items : List (GoTime × LogEntry))
    (hck : ∀ it ∈ items, it.2.checksum = 0) :
    ∀ w0 : WalState,
    walPending (walAppendAll encRec w0 items).1 =
      walPending w0 ++ (walAppendAll encRec w0 items).2 ∧
    ∀ e ∈ (walAppendAll encRec w0 items).2, walEntryCrcOk encRec e = true := by
  induction items with
  | nil => intro w0; simp [walAppendAll]
  | cons it rest ih =>
    intro w0
    have hhd : it.2.checksum = 0 := hck it (List.mem_cons_self _ _)
    have htl : ∀ x ∈ rest, x.2.checksum = 0 :=
      fun x hx => hck x (List.mem_cons_of_mem _ hx)
    obtain ⟨ih1, ih2⟩ := ih htl (walAppend encRec w0 it.1 it.2).1
    constructor
    · show walPending (walAppendAll encRec
        (walAppend encRec w0 it.1 it.2).1 rest).1 = _
      rw [ih1, walPending_append]
      simp [walAppendAll]
    · intro e he
      simp only [walAppendAll, List.mem_cons] at he
      rcases he with he | he
      · rw [he]; exact crcOk_walAppend encRec w0 it.1 it.2 hhd
      · exact ih2 e he

/-- Shared 51-byte serialisation head of the C2 counterexample entry
(`\x7b"lsn":0,"timestamp":0,"op":0,"key":"k","record":nu`), split in
chunks so the CRC state can be computed compositionally. -/
def c2chA : List Nat :=
  [123, 34, 108, 115, 110, 34, 58, 48, 44, 34, 116, 105, 109, 101, 115, 116,
    97]

/-- Second serialisation chunk of the C2 counterexample entry. -/
def c2chB : List Nat :=
  [109, 112, 34, 58, 48, 44, 34, 111, 112, 34, 58, 48, 44, 34, 107, 101, 121]

/-- Third serialisation chunk of the C2 counterexample entry. -/
def c2chC : List Nat :=
  [34, 58, 34, 107, 34, 44, 34, 114, 101, 99, 111, 114, 100, 34, 58, 110,
    117]

/-- Serialisation tail with the checksum field at its stale value 5. -/
def c2tail5 : List Nat :=
  [108, 108, 44, 34, 99, 104, 101, 99, 107, 115, 117, 109, 34, 58, 53, 125]

/-- Serialisation tail with the checksum field zeroed. -/
def c2tail0 : List Nat :=
  [108, 108, 44, 34, 99, 104, 101, 99, 107, 115, 117, 109, 34, 58, 48, 125]

theorem c2crc5 :
    crc32IEEE (marshalLogEntry encRecNull ⟨0, 0, .opPut, "k", none, 5⟩) =
      1214902908 := by
  rw [show marshalLogEntry encRecNull ⟨0, 0, .opPut, "k", none, 5⟩ =
    c2chA ++ (c2chB ++ (c2chC ++ c2tail5)) from by decide]
  show crcUpdate 0xFFFFFFFF (c2chA ++ (c2chB ++ (c2chC ++ c2tail5)))
    ^^^ 0xFFFFFFFF = 1214902908
  rw [crcUpdate_append, crcUpdate_append, crcUpdate_append,
    show crcUpdate 0xFFFFFFFF c2chA = 3860644683 from by decide,
    show crcUpdate 3860644683 c2chB = 2130643736 from by decide,
    show crcUpdate 2130643736 c2chC = 2400877005 from by decide,
    show crcUpdate 2400877005 c2tail5 = 3080064387 from by decide]
  decide

theorem c2crc0 :
    crc32IEEE (marshalLogEntry encRecNull ⟨0, 0, .opPut, "k", none, 0⟩) =
      891160121 := by
  rw [show marshalLogEntry encRecNull ⟨0, 0, .opPut, "k", none, 0⟩ =
    c2chA ++ (c2chB ++ (c2chC ++ c2tail0)) from by decide]
  show crcUpdate 0xFFFFFFFF (c2chA ++ (c2chB ++ (c2chC ++ c2tail0)))
    ^^^ 0xFFFFFFFF = 891160121
  rw [crcUpdate_append, crcUpdate_append, crcUpdate_append,
    show crcUpdate 0xFFFFFFFF c2chA = 3860644683 from by decide,
    show crcUpdate 3860644683 c2chB = 2130643736 from by decide,
    show crcUpdate 2130643736 c2chC = 2400877005 from by decide,
    show crcUpdate 2400877005 c2tail0 = 3403807174 from by decide]
  decide

/-- C2 counterexample: a `LogEntry` appended with a nonzero `Checksum`
field fails `ReadAll`'s CRC verification (the append-time CRC is
computed over the serialisation with the stale checksum value, while
verification zeroes the field first), so the entry is silently
dropped: `read_all` does NOT return the appended sequence. -/
theorem C2_counterexample :
    (walReadAll encRecNull (walAppendAll encRecNull WalState.empty
      [(⟨0, "t"⟩, ⟨0, 0, .opPut, "k", none, 5⟩)]).1).1 = [] ∧
    (walAppendAll encRecNull WalState.empty
      [(⟨0, "t"⟩, ⟨0, 0, .opPut, "k", none, 5⟩)]).2 ≠ [] := by
  have hok : walEntryCrcOk encRecNull
      (walAppend encRecNull WalState.empty ⟨0, "t"⟩
        ⟨0, 0, .opPut, "k", none, 5⟩).2 = false := by
    rw [snd_walAppend]
    unfold walEntryCrcOk
    dsimp only
    norm_num [u64OfNanos]
    rw [c2crc0, c2crc5]
    decide
  constructor
  · have h1 : (walAppendAll encRecNull WalState.empty
        [(⟨0, "t"⟩, ⟨0, 0, .opPut, "k", none, 5⟩)]).1 =
        (walAppend encRecNull WalState.empty ⟨0, "t"⟩
          ⟨0, 0, .opPut, "k", none, 5⟩).1 := rfl
    rw [fst_walReadAll, h1, walPending_append,
      show walPending WalState.empty = [] from rfl, List.nil_append]
    simp [List.filter_cons, hok]
  · show _ :: _ ≠ []
    simp

/-- C2 (amended): for every finite sequence of WAL entries whose
`Checksum` field is zero when passed to `append` (as `NewLogEntry`
produces them) and then flushed without I/O failure, `read_all`
returns exactly the appended sequence — each entry carrying the
timestamp, LSN and CRC that `append` assigned — in append order, and
every returned entry passes its CRC check. -/
theorem C2_wal_round_trip (encRec : Option Record → String)
    (items : List (GoTime × LogEntry))
    (hck : ∀ it ∈ items, it.2.checksum = 0) :
    (walReadAll encRec (walAppendAll encRec WalState.empty items).1).1 =
      (walAppendAll encRec WalState.empty items).2 ∧
    ∀ e ∈ (walAppendAll encRec WalState.empty items).2,
      walEntryCrcOk encRec e = true := by
  obtain ⟨h1, h2⟩ := walAppendAll_spec encRec items hck WalState.empty
  refine ⟨?_, h2⟩
  rw [fst_walReadAll, h1]
  simp only [walPending, WalState.empty, List.nil_append]
  exact List.filter_eq_self.mpr h2

/-- C2 witness: two concrete fresh entries round-trip through the WAL. -/
theorem C2_witness :
    (walReadAll encRecNull (walAppendAll encRecNull WalState.empty
      [(⟨3, "t3"⟩, ⟨0, 0, .opPut, "ka", none, 0⟩),
       (⟨5, "t5"⟩, ⟨0, 0, .opDelete, "kb", none, 0⟩)]).1).1 =
      (walAppendAll encRecNull WalState.empty
      [(⟨3, "t3"⟩, ⟨0, 0, .opPut, "ka", none, 0⟩),
       (⟨5, "t5"⟩, ⟨0, 0, .opDelete, "kb", none, 0⟩)]).2 ∧
    ∀ e ∈ (walAppendAll encRecNull WalState.empty
      [(⟨3, "t3"⟩, ⟨0, 0, .opPut, "ka", none, 0⟩),
       (⟨5, "t5"⟩, ⟨0, 0, .opDelete, "kb", none, 0⟩)]).2,
      walEntryCrcOk encRecNull e = true :=
  C2_wal_round_trip encRecNull _ (by decide)

/-! ## Claim C1: put-then-get round trip on the engine -/

theorem putStamp_TTL (now : GoTime) (key : String) (v : Record) :
    (putStamp now key v).TTL = v.TTL := by
  unfold putStamp
  split <;> rfl

theorem putStamp_Data (now : GoTime) (key : String) (v : Record) :
    (putStamp now key v).Data = v.Data := by
  unfold putStamp
  split <;> rfl

theorem putStamp_Vector (now : GoTime) (key : String) (v : Record) :
    (putStamp now key v).Vector = v.Vector := by
  unfold putStamp
  split <;> rfl

theorem putStamp_ID (now : GoTime) (key : String) (v : Record)
    (hid : v.ID ≠ "") : (putStamp now key v).ID = v.ID := by
  unfold putStamp
  rw [if_neg hid]

theorem verifyChecksum_putStamp (now : GoTime) (key : String) (v : Record) :
    verifyChecksum (putStamp now key v) = true := by
  unfold putStamp verifyChecksum
  simp only [beq_iff_eq]
  rfl

theorem enginePut_memTable (encRec : Option Record → String)
    (dist : List ℚ → List ℚ → ℚ) (e : KviEngine) (now : GoTime)
    (level : Nat) (key : String) (v : Record) :
    (enginePut encRec dist e now level key v).1.memTable =
      alSet e.memTable key (some (putStamp now key v)) := by
  unfold enginePut
  cases e.vectorIndex with
  | none => rfl
  | some hx =>
    dsimp only
    split
    · split <;> rfl
    · rfl

theorem enginePut_result (encRec : Option Record → String)
    (dist : List ℚ → List ℚ → ℚ) (e : KviEngine) (now : GoTime)
    (level : Nat) (key : String) (v : Record)
    (hok : isOkE (enginePut encRec dist e now level key v).2 = true) :
    (enginePut encRec dist e now level key v).2 =
      .ok (putStamp now key v) := by
  unfold enginePut at hok ⊢
  cases hveq : e.vectorIndex with
  | none => rfl
  | some hx =>
    rw [hveq] at hok
    dsimp only at hok ⊢
    by_cases hlen : (putStamp now key v).Vector.length > 0
    · rw [if_pos hlen] at hok ⊢
      cases hadd : hnswAdd dist hx key (putStamp now key v).Vector level with
      | ok hx2 => rfl
      | error err =>
        rw [hadd] at hok
        simp [isOkE] at hok
    · rw [if_neg hlen]

/-- C1 counterexample: for a value whose TTL is already expired (and
whose id is empty), `put(K, V); get(K)` does NOT return V — the put
succeeds but the get fails with key-not-found.  (The stored record's
id is also silently replaced by the key.) -/
theorem C1_counterexample :
    isOkE (enginePut encRecNull cosineDistQ newMemoryEngine ⟨100, "t1"⟩ 0 "k"
      ⟨"", [("a", .vStr "v")], [], 0, some ⟨50, "tt"⟩, 0, ⟨0, "c"⟩,
        ⟨0, "u"⟩⟩).2 = true ∧
    engineGet (enginePut encRecNull cosineDistQ newMemoryEngine ⟨100, "t1"⟩ 0
      "k" ⟨"", [("a", .vStr "v")], [], 0, some ⟨50, "tt"⟩, 0, ⟨0, "c"⟩,
        ⟨0, "u"⟩⟩).1 ⟨200, "t2"⟩ "k" = .error .keyNotFound := by
  constructor
  · decide
  · decide

/-- C1 (amended): for every key K and record value V whose id is
nonempty and whose TTL has not passed at the time of the get, a
successful `put(K, V)` followed by `get(K)` returns a record equal to
V on id, data, vector and TTL, with only the engine-assigned version,
created/updated timestamps and checksum differing. -/
theorem C1_put_get_round_trip (encRec : Option Record → String)
    (dist : List ℚ → List ℚ → ℚ) (e : KviEngine) (now now2 : GoTime)
    (level : Nat) (key : String) (v : Record)
    (_hok : isOkE (enginePut encRec dist e now level key v).2 = true)
    (hid : v.ID ≠ "")
    (httl : ∀ t, v.TTL = some t → now2.after t = false) :
    ∃ r, engineGet (enginePut encRec dist e now level key v).1 now2 key =
      .ok r ∧ r.ID = v.ID ∧ r.Data = v.Data ∧ r.Vector = v.Vector ∧
      r.TTL = v.TTL := by
  refine ⟨putStamp now key v, ?_, putStamp_ID now key v hid,
    putStamp_Data now key v, putStamp_Vector now key v, putStamp_TTL now key v⟩
  unfold engineGet
  rw [enginePut_memTable, alGet_alSet_self]
  dsimp only
  have httl2 : (match (putStamp now key v).TTL with
      | some t => now2.after t
      | none => false) = false := by
    rw [putStamp_TTL]
    cases hv : v.TTL with
    | none => rfl
    | some t => exact httl t hv
  rw [httl2]
  simp only [if_false, Bool.false_eq_true]
  rw [if_neg]
  intro hcon
  rw [verifyChecksum_putStamp] at hcon
  simp at hcon

/-- C1 witness: the round trip at a concrete memory engine, key and
record. -/
theorem C1_witness :
    ∃ r, engineGet (enginePut encRecNull cosineDistQ newMemoryEngine
      ⟨100, "t1"⟩ 0 "k" recNoVec).1 ⟨200, "t2"⟩ "k" = .ok r ∧
      r.ID = recNoVec.ID ∧ r.Data = recNoVec.Data ∧
      r.Vector = recNoVec.Vector ∧ r.TTL = recNoVec.TTL :=
  C1_put_get_round_trip encRecNull cosineDistQ newMemoryEngine ⟨100, "t1"⟩
    ⟨200, "t2"⟩ 0 "k" recNoVec (by decide) (by decide)
    (fun t ht => absurd ht (by simp [recNoVec]))

/-! ## Claim C6: the record checksum -/

/-- Comma-join used by the spec-side JSON rendering. -/
def joinComma : List String → String
  | [] => ""
  | [x] => x
  | x :: xs => x ++ "," ++ joinComma xs

/-- Spec-side JSON rendering of a rational number (exact for the
integral values used concretely in this file). -/
def jsonNumQ (q : ℚ) : String :=
  if q.den = 1 then toString q.num
  else toString q.num ++ "/" ++ toString q.den

/-- Spec-side JSON rendering of a dynamic value. -/
def jsonGoValue : GoValue → String
  | .vNull => "null"
  | .vInt n => toString n
  | .vInt64 n => toString n
  | .vInt32 n => toString n
  | .vUInt64 n => toString n
  | .vFloat q => jsonNumQ q
  | .vFloat32 q => jsonNumQ q
  | .vStr s => jsonStr s
  | .vBool b => if b then "true" else "false"
  | .vVecF32 v => "[" ++ joinComma (v.map jsonNumQ) ++ "]"

/-- The claim's notion of checksum input, following the spec's words:
the canonical (JSON) serialisation of the WHOLE record — id, data,
vector, version, ttl, checksum, created_at, updated_at — with times
rendered through their string form. -/
def specCanonicalSerialize (r : Record) : String :=
  "\x7b\"id\":" ++ jsonStr r.ID
  ++ ",\"data\":\x7b" ++ joinComma (r.Data.map
      (fun kv => jsonStr kv.1 ++ ":" ++ jsonGoValue kv.2)) ++ "\x7d"
  ++ ",\"vector\":[" ++ joinComma (r.Vector.map jsonNumQ) ++ "]"
  ++ ",\"version\":" ++ toString r.Version
  ++ ",\"ttl\":" ++ (match r.TTL with
      | none => "null"
      | some t => jsonStr t.render)
  ++ ",\"checksum\":" ++ toString r.Checksum
  ++ ",\"created_at\":" ++ jsonStr r.CreatedAt.render
  ++ ",\"updated_at\":" ++ jsonStr r.UpdatedAt.render ++ "\x7d"

/-- The checksum the claim describes: IEEE CRC-32 of the canonical
serialisation of the record with the checksum field zeroed. -/
def specChecksum (r : Record) : Nat :=
  crc32IEEE (strBytes (specCanonicalSerialize { r with Checksum := 0 }))

/-- The data actually covered by `calculateChecksum`, written
independently: id, the updated-at rendering, and each data key with
its lossy `toString` rendering. -/
def checksumCoverage (r : Record) : String :=
  r.ID ++ r.UpdatedAt.render ++ String.join (r.Data.map
    (fun kv => kv.1 ++ toStringGo kv.2))

/-- The C6 counterexample record: id "a", empty data, vector [1],
version 7. -/
def c6r : Record := ⟨"a", [], [1], 7, none, 0, ⟨0, "tc"⟩, ⟨0, "tu"⟩⟩

/-- First chunk of the spec serialisation of `c6r`. -/
def c6chA : List Nat :=
  [123, 34, 105, 100, 34, 58, 34, 97, 34, 44, 34, 100, 97, 116, 97, 34, 58,
    123, 125, 44]

/-- Second chunk of the spec serialisation of `c6r`. -/
def c6chB : List Nat :=
  [34, 118, 101, 99, 116, 111, 114, 34, 58, 91, 49, 93, 44, 34, 118, 101,
    114, 115, 105, 111]

/-- Third chunk of the spec serialisation of `c6r`. -/
def c6chC : List Nat :=
  [110, 34, 58, 55, 44, 34, 116, 116, 108, 34, 58, 110, 117, 108, 108, 44,
    34, 99, 104, 101]

/-- Fourth chunk of the spec serialisation of `c6r`. -/
def c6chD : List Nat :=
  [99, 107, 115, 117, 109, 34, 58, 48, 44, 34, 99, 114, 101, 97, 116, 101,
    100, 95, 97, 116]

/-- Fifth chunk of the spec serialisation of `c6r`. -/
def c6chE : List Nat :=
  [34, 58, 34, 116, 99, 34, 44, 34, 117, 112, 100, 97, 116, 101, 100, 95,
    97, 116, 34, 58, 34, 116, 117, 34, 125]

theorem c6specCrc : specChecksum c6r = 2189935281 := by
  unfold specChecksum
  rw [show strBytes (specCanonicalSerialize { c6r with Checksum := 0 }) =
    c6chA ++ (c6chB ++ (c6chC ++ (c6chD ++ c6chE))) from by decide]
  show crcUpdate 0xFFFFFFFF (c6chA ++ (c6chB ++ (c6chC ++ (c6chD ++ c6chE))))
    ^^^ 0xFFFFFFFF = 2189935281
  rw [crcUpdate_append, crcUpdate_append, crcUpdate_append, crcUpdate_append,
    show crcUpdate 0xFFFFFFFF c6chA = 2781352516 from by decide,
    show crcUpdate 2781352516 c6chB = 2301956792 from by decide,
    show crcUpdate 2301956792 c6chC = 972039966 from by decide,
    show crcUpdate 972039966 c6chD = 2650728572 from by decide,
    show crcUpdate 2650728572 c6chE = 2105032014 from by decide]
  decide

/-- C6 counterexample: the stored checksum is NOT the CRC-32 of the
canonical serialisation with the checksum zeroed; moreover it ignores
the vector and version entirely, so two different records share it. -/
theorem C6_counterexample :
    calculateChecksum c6r ≠ specChecksum c6r ∧
    calculateChecksum c6r =
      calculateChecksum { c6r with Vector := [2], Version := 8 } ∧
    (c6r.Vector, c6r.Version) ≠
      (({ c6r with Vector := [2], Version := 8 } : Record).Vector,
        ({ c6r with Vector := [2], Version := 8 } : Record).Version) := by
  refine ⟨?_, rfl, by decide⟩
  rw [c6specCrc]
  decide

theorem strFoldl_hoist (l : List String) (s : String) :
    List.foldl (· ++ ·) s l = s ++ List.foldl (· ++ ·) "" l := by
  induction l generalizing s with
  | nil => simp
  | cons x rest ih =>
    simp only [List.foldl_cons]
    rw [ih (s ++ x), ih ("" ++ x)]
    simp [String.append_assoc]

theorem strJoin_cons (x : String) (l : List String) :
    String.join (x :: l) = x ++ String.join l := by
  show List.foldl (· ++ ·) ("" ++ x) l = x ++ List.foldl (· ++ ·) "" l
  rw [strFoldl_hoist]
  simp

theorem foldl_strAppend (l : List (String × GoValue)) (init : String) :
    l.foldl (fun acc kv => acc ++ kv.1 ++ toStringGo kv.2) init =
      init ++ String.join (l.map (fun kv => kv.1 ++ toStringGo kv.2)) := by
  induction l generalizing init with
  | nil => simp [String.join]
  | cons kv rest ih =>
    simp only [List.foldl_cons, List.map_cons]
    rw [ih, strJoin_cons, ← String.append_assoc, ← String.append_assoc,
      String.append_assoc init]

theorem calculateChecksum_eq_coverage (r : Record) :
    calculateChecksum r = crc32IEEE (strBytes (checksumCoverage r)) := by
  unfold calculateChecksum checksumCoverage
  rw [foldl_strAppend, String.append_assoc]

theorem calculateChecksum_ignores (r : Record) (vec : List ℚ) (ver : Nat)
    (ttl : Option GoTime) (ca : GoTime) :
    calculateChecksum
      { r with
        Vector := vec, Version := ver, TTL := ttl, CreatedAt := ca } =
      calculateChecksum r := rfl

/-- C6 (amended): the checksum stored with every record equals the
IEEE CRC-32 of the concatenation of the record id, the rendered
updated-at time, and each data key with a lossy string rendering of
its value; it does not cover the vector, version, TTL or created-at
fields.  Recomputing the checksum of a stored record yields the
stored value. -/
theorem C6_checksum_coverage (encRec : Option Record → String)
    (dist : List ℚ → List ℚ → ℚ) (e : KviEngine) (now : GoTime)
    (level : Nat) (key : String) (v : Record)
    (hok : isOkE (enginePut encRec dist e now level key v).2 = true) :
    ∃ r, (enginePut encRec dist e now level key v).2 = .ok r ∧
      r.Checksum = crc32IEEE (strBytes (checksumCoverage r)) ∧
      verifyChecksum r = true ∧
      ∀ vec ver ttl ca,
        calculateChecksum
          { r with
            Vector := vec, Version := ver, TTL := ttl, CreatedAt := ca } =
          calculateChecksum r := by
  refine ⟨putStamp now key v,
    enginePut_result encRec dist e now level key v hok, ?_,
    verifyChecksum_putStamp now key v,
    fun vec ver ttl ca => calculateChecksum_ignores _ vec ver ttl ca⟩
  have h1 := verifyChecksum_putStamp now key v
  unfold verifyChecksum at h1
  simp only [beq_iff_eq] at h1
  rw [h1, calculateChecksum_eq_coverage]

/-- C6 witness: the amended checksum description at a concrete put. -/
theorem C6_witness :
    ∃ r, (enginePut encRecNull cosineDistQ newMemoryEngine ⟨100, "t1"⟩ 0 "k"
      recNoVec).2 = .ok r ∧
      r.Checksum = crc32IEEE (strBytes (checksumCoverage r)) ∧
      verifyChecksum r = true ∧
      ∀ vec ver ttl ca,
        calculateChecksum
          { r with
            Vector := vec, Version := ver, TTL := ttl, CreatedAt := ca } =
          calculateChecksum r :=
  C6_checksum_coverage encRecNull cosineDistQ newMemoryEngine ⟨100, "t1"⟩ 0
    "k" recNoVec (by decide)

/-! ## Claim C3: MVCC time travel -/

/-- The versioned-record entry one put produces. -/
def vrecOf (now : GoTime) (p : Nat × Record) : VersionedRecord :=
  ⟨p.1, some p.2, false, now⟩

/-- A sequence of puts on one key through the MVCC manager. -/
def mvccPutAll (m0 : MVCCManager) (now : GoTime) (key : String)
    (ps : List (Nat × Record)) : MVCCManager :=
  ps.foldl (fun m p => mvccAddVersion m now key p.2 p.1) m0

theorem rtake_rtake_append {α : Type} (l ys : List α) (n : Nat) :
    ((l.rtake n ++ ys).rtake n) = (l ++ ys).rtake n := by
  rw [List.rtake_eq_reverse_take_reverse, List.rtake_eq_reverse_take_reverse,
    List.rtake_eq_reverse_take_reverse, List.reverse_append,
    List.reverse_reverse, List.reverse_append,
    List.take_append_eq_append_take, List.take_append_eq_append_take,
    List.take_take, List.length_reverse,
    Nat.min_eq_left (Nat.sub_le _ _)]

theorem mvccAddVersion_chain (m : MVCCManager) (now : GoTime) (key : String)
    (r : Record) (tx : Nat) :
    mvccChain (mvccAddVersion m now key r tx) key =
      (mvccChain m key ++
        [(⟨tx, some r, false, now⟩ : VersionedRecord)]).rtake 10 := by
  unfold mvccAddVersion
  show mvccChain _ _ = _
  unfold mvccChain
  rw [alGet_alSet_self]
  dsimp only [Option.getD_some]
  split
  · rfl
  · rename_i hle
    rw [List.rtake, Nat.sub_eq_zero_of_le (by omega), List.drop_zero]

theorem mvccPutAll_chain (now : GoTime) (key : String)
    (ps : List (Nat × Record)) : ∀ m0 : MVCCManager,
    (mvccChain m0 key).length ≤ 10 →
    mvccChain (mvccPutAll m0 now key ps) key =
      (mvccChain m0 key ++ ps.map (vrecOf now)).rtake 10 := by
  induction ps with
  | nil =>
    intro m0 hlen
    simp only [mvccPutAll, List.foldl_nil, List.map_nil, List.append_nil]
    rw [List.rtake, Nat.sub_eq_zero_of_le hlen, List.drop_zero]
  | cons p rest ih =>
    intro m0 hlen
    show mvccChain (mvccPutAll (mvccAddVersion m0 now key p.2 p.1) now key
      rest) key = _
    rw [ih (mvccAddVersion m0 now key p.2 p.1)
      (by rw [mvccAddVersion_chain]; simp only [List.rtake, List.length_drop]
          omega),
      mvccAddVersion_chain, rtake_rtake_append, List.append_assoc]
    rfl

theorem find_first_le (rs : List VersionedRecord) (x : VersionedRecord)
    (hmono : rs.Pairwise (fun a b => b.txID < a.txID))
    (hlive : ∀ v ∈ rs, v.deleted = false) (hx : x ∈ rs) :
    rs.find? (fun v => v.txID ≤ x.txID && !v.deleted) = some x := by
  induction rs with
  | nil => cases hx
  | cons r rest ih =>
    rcases List.mem_cons.mp hx with hx1 | hx1
    · subst hx1
      have hd : x.deleted = false := hlive x (List.mem_cons_self _ _)
      rw [List.find?_cons_of_pos]
      simp [hd]
    · have hr : x.txID < r.txID :=
        (List.pairwise_cons.mp hmono).1 x hx1
      rw [List.find?_cons_of_neg]
      · exact ih (List.pairwise_cons.mp hmono).2
          (fun v hv => hlive v (List.mem_cons_of_mem _ hv)) hx1
      · simp only [Bool.and_eq_true, decide_eq_true_eq, Bool.not_eq_true']
        intro hcon
        omega

/-- C3 counterexample: eleven puts on one key produce versions 1..11,
but `AddVersion` keeps only the last 10 versions, so
`get_as_of(K, v1)` fails with key-not-found instead of returning the
record written at v1. -/
theorem C3_counterexample :
    mvccGet ((List.range 11).foldl (fun m i =>
      mvccAddVersion m ⟨0, "t"⟩ "k"
        ⟨"k", [], [], i + 1, none, 0, ⟨0, "c"⟩, ⟨0, "u"⟩⟩ (i + 1))
      MVCCManager.empty) "k" 1 = .error .keyNotFound ∧
    (mvccChain ((List.range 11).foldl (fun m i =>
      mvccAddVersion m ⟨0, "t"⟩ "k"
        ⟨"k", [], [], i + 1, none, 0, ⟨0, "c"⟩, ⟨0, "u"⟩⟩ (i + 1))
      MVCCManager.empty) "k").map VersionedRecord.txID =
      [2, 3, 4, 5, 6, 7, 8, 9, 10, 11] := by
  constructor
  · decide
  · decide

/-- C3 (amended): for every sequence of puts on one key K producing
strictly increasing versions v1 < … < vn, `get_as_of(K, vi)` returns
the record written at vi for every vi among the LAST TEN versions
(older versions are trimmed by the 10-version retention), scanning the
chain newest to oldest for the first non-tombstone entry with
`tx ≤ as_of`; and `get_latest(K)` returns the record at vn. -/
theorem C3_mvcc_time_travel (m0 : MVCCManager) (now : GoTime) (key : String)
    (ps : List (Nat × Record)) (h0 : mvccChain m0 key = [])
    (hmono : ps.Pairwise (fun a b => a.1 < b.1)) :
    (∀ i (hi : i < ps.length), ps.length ≤ i + 10 →
      mvccGet (mvccPutAll m0 now key ps) key (ps.get ⟨i, hi⟩).1 =
        .ok (some (ps.get ⟨i, hi⟩).2)) ∧
    (∀ hne : ps ≠ [],
      mvccGetLatest (mvccPutAll m0 now key ps) key =
        .ok (some (ps.getLast hne).2)) := by
  have hchain : mvccChain (mvccPutAll m0 now key ps) key =
      (ps.map (vrecOf now)).drop (ps.length - 10) := by
    rw [mvccPutAll_chain now key ps m0 (by rw [h0]; simp), h0,
      List.nil_append, List.rtake, List.length_map]
  have hlive : ∀ v ∈ mvccChain (mvccPutAll m0 now key ps) key,
      v.deleted = false := by
    intro v hv
    rw [hchain] at hv
    obtain ⟨p, _, hp⟩ := List.mem_map.mp (List.mem_of_mem_drop hv)
    rw [← hp]
    rfl
  have hpair : (mvccChain (mvccPutAll m0 now key ps) key).reverse.Pairwise
      (fun a b => b.txID < a.txID) := by
    rw [List.pairwise_reverse, hchain]
    exact List.Pairwise.sublist (List.drop_sublist _ _)
      (hmono.map (vrecOf now) (fun a b h => h))
  constructor
  · intro i hi hwin
    have hmem : (vrecOf now (ps.get ⟨i, hi⟩)) ∈
        mvccChain (mvccPutAll m0 now key ps) key := by
      rw [hchain]
      have hix : i - (ps.length - 10) < ((ps.map (vrecOf now)).drop
          (ps.length - 10)).length := by
        simp only [List.length_drop, List.length_map]
        omega
      have hidx : ps.length - 10 + (i - (ps.length - 10)) = i := by omega
      have hv : vrecOf now (ps.get ⟨i, hi⟩) =
          ((ps.map (vrecOf now)).drop (ps.length - 10)).get
            ⟨i - (ps.length - 10), hix⟩ := by
        rw [List.get_eq_getElem, List.get_eq_getElem, List.getElem_drop,
          List.getElem_map]
        simp only [hidx]
      rw [hv]
      exact List.get_mem _ _ _
    unfold mvccGet
    rw [if_neg (by
      intro hcon
      rw [List.length_eq_zero] at hcon
      rw [hcon] at hmem
      cases hmem)]
    have hfind := find_first_le _ (vrecOf now (ps.get ⟨i, hi⟩)) hpair
      (fun v hv => hlive v (List.mem_reverse.mp hv))
      (List.mem_reverse.mpr hmem)
    dsimp only [vrecOf] at hfind
    rw [hfind]
  · intro hne
    have hlast : (mvccChain (mvccPutAll m0 now key ps) key).getLast? =
        some (vrecOf now (ps.getLast hne)) := by
      rw [hchain, List.getLast?_drop, if_neg (by
        simp only [List.length_map]
        have : 0 < ps.length := List.length_pos.mpr hne
        omega)]
      rw [List.getLast?_map, List.getLast?_eq_getLast _ hne]
      rfl
    obtain ⟨a, tl, hrev⟩ : ∃ a tl,
        (mvccChain (mvccPutAll m0 now key ps) key).reverse = a :: tl := by
      cases hc : (mvccChain (mvccPutAll m0 now key ps) key).reverse with
      | nil =>
        rw [List.reverse_eq_nil_iff] at hc
        rw [hc] at hlast
        simp at hlast
      | cons a tl => exact ⟨a, tl, rfl⟩
    have ha : a = vrecOf now (ps.getLast hne) := by
      have h1 : (mvccChain (mvccPutAll m0 now key ps) key).getLast? =
          some a := by
        rw [← List.head?_reverse, hrev]
        rfl
      rw [h1] at hlast
      exact (Option.some.injEq _ _).mp hlast
    unfold mvccGetLatest
    rw [if_neg (by
      intro hcon
      rw [List.length_eq_zero] at hcon
      rw [hcon] at hrev
      simp at hrev)]
    rw [hrev, List.find?_cons_of_pos]
    · rw [ha]
      rfl
    · have : a.deleted = false := by
        apply hlive
        rw [← List.mem_reverse, hrev]
        exact List.mem_cons_self _ _
      simp [this]

/-- C3 witness: two puts with versions 3 < 7; both versions are
retrievable as-of, and the latest is version 7's record. -/
theorem C3_witness :
    (∀ i (hi : i < ([(3, recNoVec), (7, recWithVec)] :
        List (Nat × Record)).length),
      ([(3, recNoVec), (7, recWithVec)] : List (Nat × Record)).length ≤
        i + 10 →
      mvccGet (mvccPutAll MVCCManager.empty ⟨0, "t"⟩ "k"
        [(3, recNoVec), (7, recWithVec)]) "k"
        (([(3, recNoVec), (7, recWithVec)] :
          List (Nat × Record)).get ⟨i, hi⟩).1 =
        .ok (some (([(3, recNoVec), (7, recWithVec)] :
          List (Nat × Record)).get ⟨i, hi⟩).2)) ∧
    (∀ hne : ([(3, recNoVec), (7, recWithVec)] :
        List (Nat × Record)) ≠ [],
      mvccGetLatest (mvccPutAll MVCCManager.empty ⟨0, "t"⟩ "k"
        [(3, recNoVec), (7, recWithVec)]) "k" =
        .ok (some (([(3, recNoVec), (7, recWithVec)] :
          List (Nat × Record)).getLast hne).2)) :=
  C3_mvcc_time_travel MVCCManager.empty ⟨0, "t"⟩ "k"
    [(3, recNoVec), (7, recWithVec)] rfl
    (by simp [List.pairwise_cons])

/-! ## Claim C9: WAL recovery repopulates only the memory table -/

theorem engineReplay_frame (es : List LogEntry) : ∀ e : KviEngine,
    (engineReplay e es).mode = e.mode ∧
    (engineReplay e es).enableChecksum = e.enableChecksum ∧
    (engineReplay e es).index = e.index := by
  induction es with
  | nil => intro e; exact ⟨rfl, rfl, rfl⟩
  | cons entry rest ih =>
    intro e
    simp only [engineReplay, List.foldl_cons]
    cases entry.op <;> exact ih _

theorem enginePut_index (encRec : Option Record → String)
    (dist : List ℚ → List ℚ → ℚ) (e : KviEngine) (now : GoTime)
    (level : Nat) (key : String) (v : Record) :
    (enginePut encRec dist e now level key v).1.index =
      btreeInsert e.index ⟨key, (putStamp now key v).Version⟩ := by
  unfold enginePut
  cases e.vectorIndex with
  | none => rfl
  | some hx =>
    dsimp only
    split
    · split <;> rfl
    · rfl

/-- The engine produced by `NewEngine` in disk mode, written as the
replay of the WAL's surviving entries over fresh structures. -/
theorem newDiskEngine_eq (encRec : Option Record → String) (w : WalState) :
    newDiskEngine encRec w =
      { engineReplay
          ⟨.disk, true, [], [], none, none, none, MVCCManager.empty⟩
          ((walPending w).filter (walEntryCrcOk encRec)) with
        wal := some (walFlush w) } := rfl

/-- C9: recovery replays WAL entries into the memory table only and
leaves the B-tree index empty, so immediately after recovery every
replayed live key is readable by `get` while every `scan` returns
nothing; once the key is put again, a scan covering it returns it. -/
theorem C9_wal_recovery_frame (encRec : Option Record → String)
    (w : WalState) :
    (newDiskEngine encRec w).index = [] ∧
    (∀ (now : GoTime) (k : String) (r : Record),
      alGet (newDiskEngine encRec w).memTable k = some (some r) →
      (match r.TTL with
        | some t => now.after t
        | none => false) = false →
      verifyChecksum r = true →
      engineGet (newDiskEngine encRec w) now k = .ok r) ∧
    (∀ (now : GoTime) (start endKey : String) (limit : Int),
      engineScan (newDiskEngine encRec w) now start endKey limit = .ok []) ∧
    (∀ (dist : List ℚ → List ℚ → ℚ) (now2 now3 : GoTime) (key : String)
      (v : Record) (level : Nat) (start endKey : String) (limit : Int),
      start ≤ key → (endKey = "" ∨ key < endKey) →
      (match (putStamp now2 key v).TTL with
        | some t => !(now3.after t)
        | none => true) = true →
      engineScan (enginePut encRec dist (newDiskEngine encRec w) now2 level
        key v).1 now3 start endKey limit = .ok [putStamp now2 key v]) := by
  have hidx : (newDiskEngine encRec w).index = [] := by
    rw [newDiskEngine_eq]
    show (engineReplay _ _).index = []
    exact (engineReplay_frame _ _).2.2
  have hmode : (newDiskEngine encRec w).mode = .disk := by
    rw [newDiskEngine_eq]
    show (engineReplay _ _).mode = _
    exact (engineReplay_frame _ _).1
  refine ⟨hidx, ?_, ?_, ?_⟩
  · intro now k r hget httl hck
    unfold engineGet
    rw [hget]
    dsimp only
    rw [httl]
    simp only [Bool.false_eq_true, if_false]
    rw [if_neg]
    intro hcon
    rw [hck] at hcon
    simp at hcon
  · intro now start endKey limit
    unfold engineScan
    rw [hidx]
    rfl
  · intro dist now2 now3 key v level start endKey limit hstart hend httl
    unfold engineScan
    rw [enginePut_index, hidx,
      show btreeInsert [] ⟨key, (putStamp now2 key v).Version⟩ =
        [⟨key, (putStamp now2 key v).Version⟩] from rfl,
      List.filter_cons_of_pos (by simpa using hstart), List.filter_nil]
    simp only [scanLoop]
    split
    · rename_i hcon
      exfalso
      rcases hend with h | h
      · exact hcon.1 h
      · exact absurd hcon.2 (not_le.mpr h)
    split
    · rename_i hcon
      exfalso
      omega
    rw [enginePut_memTable, alGet_alSet_self]
    dsimp only
    rw [if_pos httl]
    rfl

theorem calculateChecksum_set (r : Record) (c : Nat) :
    calculateChecksum { r with Checksum := c } = calculateChecksum r := rfl

/-- Payload record of the C9 witness, before checksum assignment. -/
def c9recBase : Record :=
  ⟨"kz", [("f", .vStr "x")], [], 4, none, 0, ⟨1, "c"⟩, ⟨2, "u"⟩⟩

/-- Payload record of the C9 witness, carrying its valid checksum. -/
def c9rec : Record := { c9recBase with Checksum := calculateChecksum c9recBase }

/-- The C9 witness WAL entry before CRC assignment. -/
def c9base : LogEntry := ⟨0, 0, .opPut, "kz", some c9rec, 0⟩

/-- The C9 witness WAL entry, carrying its valid CRC. -/
def c9entry : LogEntry :=
  { c9base with checksum := crc32IEEE (marshalLogEntry encRecNull c9base) }

/-- A WAL file holding the single valid frame `c9entry`. -/
def c9wal : WalState := ⟨[], [c9entry]⟩

theorem c9entry_crcOk : walEntryCrcOk encRecNull c9entry = true := by
  show (crc32IEEE (marshalLogEntry encRecNull c9base)
    == crc32IEEE (marshalLogEntry encRecNull c9base)) = true
  simp

theorem c9rec_verify : verifyChecksum c9rec = true := by
  show (c9rec.Checksum == calculateChecksum c9rec) = true
  rw [show calculateChecksum c9rec = calculateChecksum c9recBase from
    calculateChecksum_set c9recBase _]
  rw [show c9rec.Checksum = calculateChecksum c9recBase from rfl]
  simp

theorem memTable_newDiskEngine (encRec : Option Record → String)
    (w : WalState) :
    (newDiskEngine encRec w).memTable =
      (engineReplay ⟨.disk, true, [], [], none, none, none, MVCCManager.empty⟩
        ((walPending w).filter (walEntryCrcOk encRec))).memTable := rfl

theorem c9_memTable : (newDiskEngine encRecNull c9wal).memTable =
    [("kz", some c9rec)] := by
  rw [memTable_newDiskEngine]
  rw [show walPending c9wal = [c9entry] from rfl,
    List.filter_cons_of_pos c9entry_crcOk, List.filter_nil]
  rfl

/-! ## C5: columnar aggregate consistency -/

/-- Whether a Go value is a float (`float64` or `float32`). -/
def isFloatVal : GoValue → Bool
  | .vFloat _ => true
  | .vFloat32 _ => true
  | _ => false

/-- The integer value of an integer-typed Go value. -/
def intValOf : GoValue → Option Int
  | .vInt n => some n
  | .vInt64 n => some n
  | .vInt32 n => some n
  | _ => none

/-- The float value of a float-typed Go value. -/
def floatValOf : GoValue → Option ℚ
  | .vFloat q => some q
  | .vFloat32 q => some q
  | _ => none

/-- The rational value of any numeric Go value. -/
def numValQ : GoValue → Option ℚ
  | .vInt n => some n
  | .vInt64 n => some n
  | .vInt32 n => some n
  | .vFloat q => some q
  | .vFloat32 q => some q
  | _ => none

/-- SUM as the spec words it: the arithmetic sum of the numeric values,
promoted to float exactly when at least one float is present. -/
def specSUM (vals : List GoValue) : GoValue :=
  if vals.any isFloatVal then .vFloat ((vals.filterMap numValQ).sum)
  else .vInt64 ((vals.filterMap intValOf).sum)

/-- The values one record contributes to the column `name`, in the
order `InsertBatch` writes them. -/
def recordValues (r : Record) (name : String) : List GoValue :=
  (if name = "id" then [GoValue.vStr r.ID] else []) ++
  (if name = "version" then [GoValue.vUInt64 r.Version] else []) ++
  (r.Data.filter (fun kv => kv.1 == name)).map Prod.snd ++
  (if name = "vector" ∧ r.Vector.length > 0 then [GoValue.vVecF32 r.Vector]
    else [])

/-- The values a record batch contributes to the column `name`. -/
def contribs (records : List Record) (name : String) : List GoValue :=
  match records with
  | [] => []
  | r :: rs => recordValues r name ++ contribs rs name

/-- Shape of a never-sealed column: the data accumulated so far, no
compression, no min/max statistics. -/
def ColShape (cols : List (String × Column)) (name : String)
    (vals : List GoValue) : Prop :=
  (vals = [] ∧ alGet cols name = none) ∨
  (∃ col, alGet cols name = some col ∧ col.data = vals ∧
    col.compressed = none ∧ col.cmin = none ∧ col.cmax = none)

theorem colShape_addValue_self (cols : List (String × Column)) (n : String)
    (t : ColumnType) (v : GoValue) (vals : List GoValue)
    (h : ColShape cols n vals) :
    ColShape (cstoreAddValue cols n t v) n (vals ++ [v]) := by
  rcases h with ⟨hv, hget⟩ | ⟨col, hget, hdata, hcomp, hmin, hmax⟩
  · subst hv
    right
    refine ⟨⟨n, t, [v], none, none, none, 0, 1⟩, ?_, rfl, rfl, rfl, rfl⟩
    unfold cstoreAddValue
    rw [hget]
    exact alGet_alSet_self _ _ _
  · right
    refine ⟨{ col with data := col.data ++ [v], rowCount := col.rowCount + 1 },
      ?_, ?_, hcomp, hmin, hmax⟩
    · unfold cstoreAddValue
      rw [hget]
      exact alGet_alSet_self _ _ _
    · show col.data ++ [v] = vals ++ [v]
      rw [hdata]

theorem colShape_addValue_ne (cols : List (String × Column)) (n : String)
    (t : ColumnType) (v : GoValue) (name : String) (vals : List GoValue)
    (hne : name ≠ n) (h : ColShape cols name vals) :
    ColShape (cstoreAddValue cols n t v) name vals := by
  have hal : ∀ c : Column, alGet (alSet cols n c) name = alGet cols name :=
    fun c => alGet_alSet_ne cols n name c hne
  unfold cstoreAddValue
  cases hget : alGet cols n with
  | none =>
    rcases h with ⟨hv, hg⟩ | ⟨col, hg, hrest⟩
    · exact Or.inl ⟨hv, by rw [hal]; exact hg⟩
    · exact Or.inr ⟨col, by rw [hal]; exact hg, hrest⟩
  | some c0 =>
    rcases h with ⟨hv, hg⟩ | ⟨col, hg, hrest⟩
    · exact Or.inl ⟨hv, by rw [hal]; exact hg⟩
    · exact Or.inr ⟨col, by rw [hal]; exact hg, hrest⟩

theorem colShape_dataFold (name : String) :
    ∀ (kvs : List (String × GoValue)) (cols : List (String × Column))
      (vals : List GoValue), ColShape cols name vals →
      ColShape (kvs.foldl (fun cs kv =>
        cstoreAddValue cs kv.1 (inferColumnType kv.2) kv.2) cols) name
        (vals ++ (kvs.filter (fun kv => kv.1 == name)).map Prod.snd) := by
  intro kvs
  induction kvs with
  | nil => intro cols vals h; simpa using h
  | cons kv rest ih =>
    intro cols vals h
    rw [List.foldl_cons]
    by_cases hk : kv.1 = name
    · subst hk
      have h2 := colShape_addValue_self cols kv.1 (inferColumnType kv.2)
        kv.2 vals h
      have h3 := ih _ _ h2
      simpa [List.filter_cons, List.append_assoc] using h3
    · have h2 := colShape_addValue_ne cols kv.1 (inferColumnType kv.2)
        kv.2 name vals (Ne.symm hk) h
      have h3 := ih _ _ h2
      simpa [List.filter_cons, hk] using h3

theorem colShape_insertRecord (cols : List (String × Column)) (r : Record)
    (name : String) (vals : List GoValue) (h : ColShape cols name vals) :
    ColShape (cstoreInsertRecord cols r) name
      (vals ++ recordValues r name) := by
  have s1 : ColShape (cstoreAddValue cols "id" .tString (.vStr r.ID)) name
      (vals ++ (if name = "id" then [GoValue.vStr r.ID] else [])) := by
    by_cases h1 : name = "id"
    · subst h1
      simpa using colShape_addValue_self cols "id" .tString (.vStr r.ID) vals h
    · simpa [h1] using colShape_addValue_ne cols "id" .tString (.vStr r.ID)
        name vals h1 h
  have s2 : ColShape (cstoreAddValue (cstoreAddValue cols "id" .tString
      (.vStr r.ID)) "version" .tInt (.vUInt64 r.Version)) name
      ((vals ++ (if name = "id" then [GoValue.vStr r.ID] else [])) ++
        (if name = "version" then [GoValue.vUInt64 r.Version] else [])) := by
    by_cases h2 : name = "version"
    · subst h2
      simpa using colShape_addValue_self _ "version" .tInt
        (.vUInt64 r.Version) _ s1
    · simpa [h2] using colShape_addValue_ne _ "version" .tInt
        (.vUInt64 r.Version) name _ h2 s1
  have s3 := colShape_dataFold name r.Data _ _ s2
  by_cases h4 : r.Vector.length > 0
  · by_cases hv : name = "vector"
    · subst hv
      have s4 := colShape_addValue_self _ "vector" .tVector
        (.vVecF32 r.Vector) _ s3
      simp only [cstoreInsertRecord]
      rw [if_pos h4]
      simpa [recordValues, h4, List.append_assoc] using s4
    · have s4 := colShape_addValue_ne _ "vector" .tVector
        (.vVecF32 r.Vector) name _ hv s3
      simp only [cstoreInsertRecord]
      rw [if_pos h4]
      simpa [recordValues, hv, List.append_assoc] using s4
  · simp only [cstoreInsertRecord]
    rw [if_neg h4]
    simpa [recordValues, h4, List.append_assoc] using s3

theorem colShape_batch (name : String) :
    ∀ (records : List Record) (cols : List (String × Column))
      (vals : List GoValue), ColShape cols name vals →
      ColShape (records.foldl cstoreInsertRecord cols) name
        (vals ++ contribs records name) := by
  intro records
  induction records with
  | nil => intro cols vals h; simpa [contribs] using h
  | cons r rs ih =>
    intro cols vals h
    rw [List.foldl_cons]
    have h2 := colShape_insertRecord cols r name vals h
    simpa [contribs, List.append_assoc] using ih _ _ h2

theorem insertBatch_fresh (bs : Nat) (comp : Bool) (now : GoTime)
    (records : List Record)
    (hlen : (contribs records "id").length < bs) :
    insertBatch (CStore.new bs comp) now records =
      { CStore.new bs comp with
        columns := records.foldl cstoreInsertRecord [] } := by
  have hid := colShape_batch "id" records [] [] (Or.inl ⟨rfl, rfl⟩)
  simp only [List.nil_append] at hid
  unfold insertBatch CStore.new
  dsimp only
  rcases hid with ⟨hv, hget⟩ | ⟨col, hget, hdata, _, _, _⟩
  · rw [hget]
  · rw [hget]
    have hno : ¬ (col.data.length ≥ bs) := by
      rw [hdata]
      omega
    exact if_neg hno

theorem aggregate_unsealed (c : CStore) (nm : String) (col : Column)
    (hget : alGet c.columns nm = some col) (hcomp : col.compressed = none) :
    aggregate c nm "COUNT" = .ok ⟨some (.vInt64 col.data.length),
      col.data.length, col.data.length⟩ ∧
    aggregate c nm "SUM" = .ok ⟨some (sumValues col.data),
      col.data.length, col.data.length⟩ ∧
    aggregate c nm "MIN" = .ok ⟨col.cmin, col.data.length,
      col.data.length⟩ ∧
    aggregate c nm "MAX" = .ok ⟨col.cmax, col.data.length,
      col.data.length⟩ := by
  refine ⟨?_, ?_, ?_, ?_⟩ <;>
    simp [aggregate, hget, hcomp, decompressColumn]

theorem wrap64_eq_self (n : Int) (h1 : -(2 ^ 63) ≤ n) (h2 : n < 2 ^ 63) :
    wrap64 n = n := by
  unfold wrap64
  have h3 : (0 : Int) ≤ n + 2 ^ 63 := by omega
  have h4 : n + 2 ^ 63 < 2 ^ 64 := by omega
  rw [Int.emod_eq_of_lt h3 h4]
  omega

theorem foldl_sumValuesStep_spec :
    ∀ (vals : List GoValue) (a : Int) (q : ℚ) (b : Bool),
      (∀ k : Nat, -(2 ^ 63) ≤ a + ((vals.take k).filterMap intValOf).sum ∧
        a + ((vals.take k).filterMap intValOf).sum < 2 ^ 63) →
      vals.foldl sumValuesStep (a, q, b) =
        (a + (vals.filterMap intValOf).sum,
          q + (vals.filterMap floatValOf).sum, b || vals.any isFloatVal) := by
  intro vals
  induction vals with
  | nil =>
    intro a q b _
    simp
  | cons v vs ih =>
    intro a q b hnof
    have h1 := hnof 1
    rw [List.foldl_cons]
    cases v with
    | vInt n =>
      simp only [sumValuesStep]
      have hb : wrap64 (a + n) = a + n := by
        apply wrap64_eq_self
        · simpa [intValOf] using h1.1
        · simpa [intValOf] using h1.2
      rw [hb, ih (a + n) q b ?_]
      · simp [List.filterMap_cons, intValOf, floatValOf, isFloatVal,
          List.any_cons, add_assoc]
      · intro k
        have hk := hnof (k + 1)
        simp only [List.take_succ_cons, List.filterMap_cons, intValOf,
          List.sum_cons] at hk
        refine ⟨?_, ?_⟩ <;> omega
    | vInt64 n =>
      simp only [sumValuesStep]
      have hb : wrap64 (a + n) = a + n := by
        apply wrap64_eq_self
        · simpa [intValOf] using h1.1
        · simpa [intValOf] using h1.2
      rw [hb, ih (a + n) q b ?_]
      · simp [List.filterMap_cons, intValOf, floatValOf, isFloatVal,
          List.any_cons, add_assoc]
      · intro k
        have hk := hnof (k + 1)
        simp only [List.take_succ_cons, List.filterMap_cons, intValOf,
          List.sum_cons] at hk
        refine ⟨?_, ?_⟩ <;> omega
    | vInt32 n =>
      simp only [sumValuesStep]
      have hb : wrap64 (a + n) = a + n := by
        apply wrap64_eq_self
        · simpa [intValOf] using h1.1
        · simpa [intValOf] using h1.2
      rw [hb, ih (a + n) q b ?_]
      · simp [List.filterMap_cons, intValOf, floatValOf, isFloatVal,
          List.any_cons, add_assoc]
      · intro k
        have hk := hnof (k + 1)
        simp only [List.take_succ_cons, List.filterMap_cons, intValOf,
          List.sum_cons] at hk
        refine ⟨?_, ?_⟩ <;> omega
    | vFloat qq =>
      simp only [sumValuesStep]
      rw [ih a (q + qq) true ?_]
      · simp [List.filterMap_cons, intValOf, floatValOf, isFloatVal,
          List.any_cons, add_assoc]
      · intro k
        have hk := hnof (k + 1)
        simpa [intValOf] using hk
    | vFloat32 qq =>
      simp only [sumValuesStep]
      rw [ih a (q + qq) true ?_]
      · simp [List.filterMap_cons, intValOf, floatValOf, isFloatVal,
          List.any_cons, add_assoc]
      · intro k
        have hk := hnof (k + 1)
        simpa [intValOf] using hk
    | vNull =>
      simp only [sumValuesStep]
      rw [ih a q b ?_]
      · simp [List.filterMap_cons, intValOf, floatValOf, isFloatVal,
          List.any_cons]
      · intro k
        have hk := hnof (k + 1)
        simpa [intValOf] using hk
    | vUInt64 n =>
      simp only [sumValuesStep]
      rw [ih a q b ?_]
      · simp [List.filterMap_cons, intValOf, floatValOf, isFloatVal,
          List.any_cons]
      · intro k
        have hk := hnof (k + 1)
        simpa [intValOf] using hk
    | vStr s =>
      simp only [sumValuesStep]
      rw [ih a q b ?_]
      · simp [List.filterMap_cons, intValOf, floatValOf, isFloatVal,
          List.any_cons]
      · intro k
        have hk := hnof (k + 1)
        simpa [intValOf] using hk
    | vBool b2 =>
      simp only [sumValuesStep]
      rw [ih a q b ?_]
      · simp [List.filterMap_cons, intValOf, floatValOf, isFloatVal,
          List.any_cons]
      · intro k
        have hk := hnof (k + 1)
        simpa [intValOf] using hk
    | vVecF32 l =>
      simp only [sumValuesStep]
      rw [ih a q b ?_]
      · simp [List.filterMap_cons, intValOf, floatValOf, isFloatVal,
          List.any_cons]
      · intro k
        have hk := hnof (k + 1)
        simpa [intValOf] using hk

theorem numValQ_split (vals : List GoValue) :
    ((vals.filterMap numValQ).sum : ℚ) =
      (vals.filterMap floatValOf).sum +
        ((vals.filterMap intValOf).sum : ℚ) := by
  induction vals with
  | nil => simp
  | cons v vs ih =>
    cases v <;>
      simp [numValQ, floatValOf, intValOf, List.filterMap_cons, ih] <;>
      ring

theorem sumValues_eq_specSUM (vals : List GoValue)
    (hnof : ∀ k : Nat,
      -(2 ^ 63) ≤ ((vals.take k).filterMap intValOf).sum ∧
      ((vals.take k).filterMap intValOf).sum < 2 ^ 63) :
    sumValues vals = specSUM vals := by
  have hfold := foldl_sumValuesStep_spec vals 0 0 false (by simpa using hnof)
  unfold sumValues specSUM
  rw [hfold]
  dsimp only
  simp only [zero_add, Bool.false_or]
  by_cases hf : vals.any isFloatVal
  · rw [if_pos hf, if_pos hf, numValQ_split]
  · rw [if_neg hf, if_neg hf]

/-- C5 (amended): in a store that has not yet sealed a block, COUNT of
a populated column equals the number of values inserted into it, SUM
equals the arithmetic sum of its numeric values — an exact `int64` sum
when no float was inserted (assuming no intermediate wrap-around), and
a float sum when at least one float is present — while MIN and MAX
return nil because the column statistics are only computed when a
block is sealed. -/
theorem C5_columnar_aggregates (bs : Nat) (comp : Bool) (now : GoTime)
    (records : List Record) (name : String)
    (hpop : contribs records name ≠ [])
    (hseal : (contribs records "id").length < bs)
    (hnof : ∀ k : Nat,
      -(2 ^ 63) ≤ (((contribs records name).take k).filterMap intValOf).sum ∧
      (((contribs records name).take k).filterMap intValOf).sum < 2 ^ 63) :
    aggregate (insertBatch (CStore.new bs comp) now records) name "COUNT" =
      .ok ⟨some (.vInt64 (contribs records name).length),
        (contribs records name).length, (contribs records name).length⟩ ∧
    aggregate (insertBatch (CStore.new bs comp) now records) name "SUM" =
      .ok ⟨some (specSUM (contribs records name)),
        (contribs records name).length, (contribs records name).length⟩ ∧
    aggregate (insertBatch (CStore.new bs comp) now records) name "MIN" =
      .ok ⟨none, (contribs records name).length,
        (contribs records name).length⟩ ∧
    aggregate (insertBatch (CStore.new bs comp) now records) name "MAX" =
      .ok ⟨none, (contribs records name).length,
        (contribs records name).length⟩ := by
  have hstore := insertBatch_fresh bs comp now records hseal
  have hshape := colShape_batch name records [] [] (Or.inl ⟨rfl, rfl⟩)
  simp only [List.nil_append] at hshape
  rcases hshape with ⟨hv, _⟩ | ⟨col, hget, hdata, hcomp, hmin, hmax⟩
  · exact absurd hv hpop
  · rw [hstore]
    have hagg := aggregate_unsealed
      { CStore.new bs comp with columns := records.foldl cstoreInsertRecord [] }
      name col hget hcomp
    rw [hdata] at hagg
    rw [hmin, hmax] at hagg
    refine ⟨hagg.1, ?_, hagg.2.2.1, hagg.2.2.2⟩
    rw [hagg.2.1, sumValues_eq_specSUM _ hnof]

/-- The single-record batch of the C5 counterexample and witness. -/
def c5rec : Record :=
  ⟨"r1", [("x", .vInt 5)], [], 0, none, 0, ⟨0, "c"⟩, ⟨0, "u"⟩⟩

/-- C5 counterexample: after inserting one record with field x = 5 into
a fresh store (block size 10000, so no block is sealed), the x column
holds the value but MIN and MAX both return nil instead of 5. -/
theorem C5_counterexample :
    ((alGet (insertBatch (CStore.new 10000 false) ⟨0, "t"⟩
      [c5rec]).columns "x").map Column.data) = some [.vInt 5] ∧
    aggregate (insertBatch (CStore.new 10000 false) ⟨0, "t"⟩ [c5rec]) "x"
      "MIN" = .ok ⟨none, 1, 1⟩ ∧
    aggregate (insertBatch (CStore.new 10000 false) ⟨0, "t"⟩ [c5rec]) "x"
      "MAX" = .ok ⟨none, 1, 1⟩ := by
  refine ⟨?_, ?_, ?_⟩ <;> decide

/-- C5 witness: the amended aggregate theorem applied to that
single-record batch on column x. -/
theorem C5_witness :
    contribs [c5rec] "x" = [.vInt 5] ∧
    aggregate (insertBatch (CStore.new 10000 false) ⟨0, "t"⟩ [c5rec]) "x"
      "COUNT" = .ok ⟨some (.vInt64 1), 1, 1⟩ ∧
    aggregate (insertBatch (CStore.new 10000 false) ⟨0, "t"⟩ [c5rec]) "x"
      "SUM" = .ok ⟨some (.vInt64 5), 1, 1⟩ ∧
    aggregate (insertBatch (CStore.new 10000 false) ⟨0, "t"⟩ [c5rec]) "x"
      "MIN" = .ok ⟨none, 1, 1⟩ := by
  have h := C5_columnar_aggregates 10000 false ⟨0, "t"⟩ [c5rec] "x"
    (by decide) (by decide)
    (by
      intro k
      rcases k with _ | k <;>
        simp [contribs, recordValues, c5rec, intValOf])
  exact ⟨by decide, h.1, h.2.1, h.2.2.1⟩

/-! ## C4: bidirectionality of the HNSW proximity graph -/

/-- Bidirectionality invariant from the spec: whenever a stored node
lists another stored node among its level-`l` neighbours, the reverse
edge exists at the same level. -/
def Bidirectional (h : HNSW) : Prop :=
  ∀ pa ∈ h.nodes, ∀ pb ∈ h.nodes, ∀ l : Nat,
    pb.1 ∈ friendsAt pa.2 l → pa.1 ∈ friendsAt pb.2 l

/-- After the unlink pass of `Delete`, a node's adjacency list at each
level is either unchanged or filtered free of the deleted id. -/
def Unlinked (id : String) (n n0 : HNode) : Prop :=
  ∀ l : Nat, friendsAt n l = friendsAt n0 l ∨
    friendsAt n l = (friendsAt n0 l).filter (fun x => x ≠ id)

/-- Every node of `nodes` descends from a node of `base` with the same
key by an unlink step. -/
def UnlinkInv (id : String) (base nodes : List (String × HNode)) : Prop :=
  ∀ p ∈ nodes, ∃ p0 ∈ base, p0.1 = p.1 ∧ Unlinked id p.2 p0.2

theorem filter_self_idem {α : Type} (p : α → Bool) (l : List α) :
    (l.filter p).filter p = l.filter p := by
  induction l with
  | nil => rfl
  | cons x xs ih =>
    by_cases h : p x <;> simp [List.filter_cons, h, ih]

theorem friendsAt_set_self (n : HNode) (L : Nat) (fr : List String) :
    friendsAt { n with friends := alSet n.friends L fr } L = fr := by
  unfold friendsAt
  rw [alGet_alSet_self]
  rfl

theorem friendsAt_set_ne (n : HNode) (L l : Nat) (fr : List String)
    (hne : l ≠ L) :
    friendsAt { n with friends := alSet n.friends L fr } l =
      friendsAt n l := by
  unfold friendsAt
  rw [alGet_alSet_ne n.friends L l fr hne]

theorem unlink_inner_inv (id : String) (base : List (String × HNode))
    (L : Nat) :
    ∀ (fids : List String) (nodes : List (String × HNode)),
      UnlinkInv id base nodes →
      UnlinkInv id base (fids.foldl (fun nodes fid =>
        match alGet nodes fid with
        | none => nodes
        | some friend =>
          let kept := (friendsAt friend L).filter (fun x => x ≠ id)
          alSet nodes fid
            { friend with friends := alSet friend.friends L kept })
        nodes) := by
  intro fids
  induction fids with
  | nil => intro nodes hinv; exact hinv
  | cons f fs ih =>
    intro nodes hinv
    rw [List.foldl_cons]
    apply ih
    cases hget : alGet nodes f with
    | none => simpa [hget] using hinv
    | some friend =>
      simp only [hget]
      intro p hp
      rcases mem_alSet _ _ _ _ hp with hmem | heq
      · exact hinv p hmem
      · obtain ⟨p0, hp0, hkey, hrel⟩ := hinv _ (alGet_mem _ _ _ hget)
        subst heq
        refine ⟨p0, hp0, hkey, ?_⟩
        intro l
        by_cases hl : l = L
        · subst hl
          rw [friendsAt_set_self]
          rcases hrel l with h0 | h0
          · right
            rw [h0]
          · right
            rw [h0, filter_self_idem]
        · rw [friendsAt_set_ne _ _ _ _ hl]
          exact hrel l

theorem unlink_foldl_inv (id : String) (base : List (String × HNode)) :
    ∀ (lfs : List (Nat × List String)) (nodes : List (String × HNode)),
      UnlinkInv id base nodes →
      UnlinkInv id base (lfs.foldl (fun nodes lf =>
        lf.2.foldl (fun nodes fid =>
          match alGet nodes fid with
          | none => nodes
          | some friend =>
            let kept := (friendsAt friend lf.1).filter (fun x => x ≠ id)
            alSet nodes fid
              { friend with friends := alSet friend.friends lf.1 kept })
          nodes) nodes) := by
  intro lfs
  induction lfs with
  | nil => intro nodes hinv; exact hinv
  | cons lf lfs ih =>
    intro nodes hinv
    rw [List.foldl_cons]
    exact ih _ (unlink_inner_inv id base lf.1 lf.2 nodes hinv)

theorem bidir_after_unlink (h : HNSW) (id : String)
    (ns : List (String × HNode)) (ep : Option String)
    (hbid : Bidirectional h) (hinv : UnlinkInv id h.nodes ns) :
    Bidirectional { h with nodes := alDel ns id, enterPoint := ep } := by
  intro pa hpa pb hpb l hmem
  replace hpa : pa ∈ List.filter (fun p => !(p.1 == id)) ns := hpa
  replace hpb : pb ∈ List.filter (fun p => !(p.1 == id)) ns := hpb
  have hpane : pa.1 ≠ id := by
    have := (List.mem_filter.mp hpa).2
    simpa using this
  obtain ⟨pa0, hpa0, hka, hrela⟩ := hinv pa (List.mem_filter.mp hpa).1
  obtain ⟨pb0, hpb0, hkb, hrelb⟩ := hinv pb (List.mem_filter.mp hpb).1
  have hmem0 : pb.1 ∈ friendsAt pa0.2 l := by
    rcases hrela l with hx | hx
    · rwa [hx] at hmem
    · rw [hx] at hmem
      exact (List.mem_filter.mp hmem).1
  have hback : pa0.1 ∈ friendsAt pb0.2 l :=
    hbid pa0 hpa0 pb0 hpb0 l (by rwa [hkb])
  rw [hka] at hback
  rcases hrelb l with hy | hy
  · rw [hy]
    exact hback
  · rw [hy]
    refine List.mem_filter.mpr ⟨hback, ?_⟩
    simpa using hpane

/-- Node "D" of the four-insert counterexample graph. -/
def cexNodeD : HNode := ⟨"D", [4, 3], 0, [(0, ["B", "A"])]⟩

/-- Node "B" of the four-insert counterexample graph. -/
def cexNodeB : HNode := ⟨"B", [3, 4], 0, [(0, ["", "C"])]⟩

/-- States of the counterexample insertion sequence. -/
def cexH1 : HNSW :=
  okOr (HNSW.new 2 1 10) (hnswAdd cosineDistQ (HNSW.new 2 1 10) "A" [1, 0] 0)

def cexH2 : HNSW := okOr cexH1 (hnswAdd cosineDistQ cexH1 "B" [3, 4] 0)

def cexH3 : HNSW := okOr cexH2 (hnswAdd cosineDistQ cexH2 "C" [0, 1] 0)

def cexH4 : HNSW := okOr cexH3 (hnswAdd cosineDistQ cexH3 "D" [4, 3] 0)

theorem cexH4_memD : ("D", cexNodeD) ∈ cexH4.nodes := by
  with_unfolding_all decide

theorem cexH4_memB : ("B", cexNodeB) ∈ cexH4.nodes := by
  with_unfolding_all decide

/-- C4 counterexample: four successful inserts into an empty index (dim
2, M = 1, ef = 10, all sampled levels 0, exact cosine distance) leave a
graph where "D" lists "B" at level 0 but "B" does not list "D". -/
theorem C4_counterexample :
    hnswAdd cosineDistQ (HNSW.new 2 1 10) "A" [1, 0] 0 = .ok cexH1 ∧
    hnswAdd cosineDistQ cexH1 "B" [3, 4] 0 = .ok cexH2 ∧
    hnswAdd cosineDistQ cexH2 "C" [0, 1] 0 = .ok cexH3 ∧
    hnswAdd cosineDistQ cexH3 "D" [4, 3] 0 = .ok cexH4 ∧
    ¬ Bidirectional cexH4 := by
  refine ⟨by with_unfolding_all decide, by with_unfolding_all decide,
    by with_unfolding_all decide, by with_unfolding_all decide,
    fun hbid => ?_⟩
  have hback := hbid _ cexH4_memD _ cexH4_memB 0 (by with_unfolding_all decide)
  exact absurd hback (by with_unfolding_all decide)

/-- C4 (amended): `Delete` preserves bidirectionality — the unlink pass
removes the deleted id from exactly the neighbours it lists, which by
bidirectionality are all holders of a reverse edge. -/
theorem C4_delete_preserves_bidirectional (h : HNSW) (id : String)
    (h' : HNSW) (hbid : Bidirectional h)
    (hdel : hnswDelete h id = .ok h') : Bidirectional h' := by
  unfold hnswDelete at hdel
  cases hget : alGet h.nodes id with
  | none =>
    rw [hget] at hdel
    exact Except.noConfusion hdel
  | some node =>
    rw [hget] at hdel
    injection hdel with hh
    subst hh
    exact bidir_after_unlink h id _ _ hbid
      (unlink_foldl_inv id h.nodes node.friends h.nodes
        (fun p hp => ⟨p, hp, rfl, fun _ => Or.inl rfl⟩))

/-- The two-node mutually linked witness graph. -/
def c4g : HNSW :=
  ⟨2, 1, 10, 0, some "A",
    [("A", ⟨"A", [1, 0], 0, [(0, ["B"])]⟩),
     ("B", ⟨"B", [0, 1], 0, [(0, ["A"])]⟩)],
    List.replicate 16 0⟩

/-- The witness graph after deleting node "B". -/
def c4g' : HNSW :=
  ⟨2, 1, 10, 0, some "A",
    [("A", ⟨"A", [1, 0], 0, [(0, [])]⟩)],
    List.replicate 16 0⟩

theorem friendsAt_single_zero (nid : String) (v : List ℚ) (lev : Nat)
    (fr : List String) : friendsAt ⟨nid, v, lev, [(0, fr)]⟩ 0 = fr := rfl

theorem friendsAt_single_succ (nid : String) (v : List ℚ) (lev : Nat)
    (fr : List String) (n : Nat) :
    friendsAt ⟨nid, v, lev, [(0, fr)]⟩ (n + 1) = [] := rfl

theorem c4g_bidir : Bidirectional c4g := by
  intro pa hpa pb hpb l hmem
  replace hpa : pa = ("A", ⟨"A", [1, 0], 0, [(0, ["B"])]⟩) ∨
      pa = ("B", ⟨"B", [0, 1], 0, [(0, ["A"])]⟩) := by
    simpa [c4g] using hpa
  replace hpb : pb = ("A", ⟨"A", [1, 0], 0, [(0, ["B"])]⟩) ∨
      pb = ("B", ⟨"B", [0, 1], 0, [(0, ["A"])]⟩) := by
    simpa [c4g] using hpb
  cases l with
  | zero =>
    rcases hpa with rfl | rfl <;> rcases hpb with rfl | rfl <;>
      revert hmem <;> with_unfolding_all decide
  | succ n =>
    rcases hpa with rfl | rfl <;>
      exact absurd (by rwa [friendsAt_single_succ] at hmem)
        (List.not_mem_nil _)

/-- C4 witness: the delete-preservation theorem applied to a two-node
mutually linked graph, deleting node "B". -/
theorem C4_witness :
    Bidirectional c4g ∧ hnswDelete c4g "B" = .ok c4g' ∧
      Bidirectional c4g' :=
  ⟨c4g_bidir, by with_unfolding_all decide,
    C4_delete_preserves_bidirectional c4g "B" c4g' c4g_bidir
      (by with_unfolding_all decide)⟩

/-- C9 witness: the frame theorem applied to a WAL holding one valid
put frame for key "kz". -/
theorem C9_witness :
    (newDiskEngine encRecNull c9wal).index = [] ∧
    engineGet (newDiskEngine encRecNull c9wal) ⟨5, "t5"⟩ "kz" = .ok c9rec ∧
    engineScan (newDiskEngine encRecNull c9wal) ⟨5, "t5"⟩ "a" "z" 10 =
      .ok [] ∧
    engineScan (enginePut encRecNull cosineDistQ (newDiskEngine encRecNull
      c9wal) ⟨6, "t6"⟩ 0 "kz" c9rec).1 ⟨7, "t7"⟩ "kz" "" 10 =
      .ok [putStamp ⟨6, "t6"⟩ "kz" c9rec] := by
  obtain ⟨h1, h2, h3, h4⟩ := C9_wal_recovery_frame encRecNull c9wal
  refine ⟨h1, ?_, h3 ⟨5, "t5"⟩ "a" "z" 10, ?_⟩
  · apply h2
    · rw [c9_memTable]
      simp [alGet, List.find?]
    · rfl
    · exact c9rec_verify
  · apply h4
    · exact le_refl _
    · left
      rfl
    · rw [putStamp_TTL]
      rfl

end Kvi
